import Mathlib

/-!
Verification development for the quicrq fragment cache and its publisher
state machine (files src/lib/relay.c and the unnamed fragment-cache module,
which contains a textually identical copy of the cache routines under the
quicrq_fragment_ prefix).

The cached-fragment splay tree (picosplay, an external library of the
transport substrate) is modelled by its in-order traversal: a list of
fragment records sorted by the key (group_id, object_id, offset).
picosplay_insert places a new node after existing nodes with an equal key
(equal keys descend to the right subtree), picosplay_find_previous returns
the largest node whose key is strictly below the probe key, and
picosplay_next / picosplay_previous are neighbours in the sorted order.
A tree node held across insertions is represented by its index in the
sorted list, shifted when an insertion lands at or before it, which is
exactly how a stable pointer behaves under splay insertions.

Machine integers: group_id and object_id are 62-bit values on the wire and
offsets are uint64 byte counts; all the arithmetic performed on them by the
modelled code (comparisons, additions of fragment lengths) stays far below
2^64, so they are modelled as Nat. UINT64_MAX appears only as a probe key.
-/

namespace Quicrq

def UINT64_MAX : Nat := 2 ^ 64 - 1

/-- Cached fragment record, from struct st_quicrq_relay_cached_fragment_t.
The payload bytes are not modelled: none of the modelled routines inspects
them (they are only copied), so a record keeps its length instead. -/
structure Fragment where
  group_id : Nat
  object_id : Nat
  offset : Nat
  data_length : Nat
  queue_delay : Nat := 0
  flags : Nat := 0
  nb_objects_previous_group : Nat := 0
  is_last_fragment : Bool := false
  cache_time : Nat := 0
  deriving Repr, DecidableEq

/-- Cache state, from struct st_quicrq_relay_cached_media_t. The field
`fragments` is the in-order traversal of the fragment splay tree. The
arrival-order list shares the same records; only its emptiness
(first_fragment == NULL, i.e. fragments = []) is used by the modelled
routines. -/
structure CacheState where
  fragments : List Fragment := []
  first_group_id : Nat := 0
  first_object_id : Nat := 0
  next_group_id : Nat := 0
  next_object_id : Nat := 0
  next_offset : Nat := 0
  final_group_id : Nat := 0
  final_object_id : Nat := 0
  nb_object_received : Nat := 0
  is_closed : Bool := false
  cache_delete_time : Nat := 0
  deriving Repr, DecidableEq

/-- Key comparison of a stored fragment against a probe key (g, o, off):
quicrq_relay_cache_fragment_node_compare yields a negative value. -/
def fragKeyLt (a : Fragment) (g o off : Nat) : Bool :=
  decide (a.group_id < g) ||
    (decide (a.group_id = g) &&
      (decide (a.object_id < o) ||
        (decide (a.object_id = o) && decide (a.offset < off))))

/-- Strict key order between two fragment records. -/
def fragLt (a b : Fragment) : Bool :=
  fragKeyLt a b.group_id b.object_id b.offset

/-- Exact key equality, as used by picosplay_find. -/
def fragKeyEq (a : Fragment) (g o off : Nat) : Bool :=
  decide (a.group_id = g) && decide (a.object_id = o) && decide (a.offset = off)

/-- picosplay_insert on the in-order list: the new record is placed before
the first record whose key is strictly greater, hence after all records
with a smaller or equal key. Returns the updated list and the insertion
index (the position of the new node in the new in-order traversal). -/
def picosplay_insert : List Fragment → Fragment → List Fragment × Nat
  | [], f => ([f], 0)
  | x :: xs, f =>
    if fragLt f x then (f :: x :: xs, 0)
    else
      let r := picosplay_insert xs f
      (x :: r.1, r.2 + 1)

/-- picosplay_find_previous: the largest node whose key is strictly below
(g, o, off); on the sorted traversal this is the last node of the prefix
satisfying the strict comparison. -/
def picosplay_find_previous (l : List Fragment) (g o off : Nat) : Option Fragment :=
  (l.takeWhile (fun f => fragKeyLt f g o off)).getLast?

/-- Index form of picosplay_find_previous, used when the caller keeps the
node across later tree updates. -/
def picosplay_find_previous_idx (l : List Fragment) (g o off : Nat) : Option Nat :=
  let n := (l.takeWhile (fun f => fragKeyLt f g o off)).length
  if n = 0 then none else some (n - 1)

/-- quicrq_relay_cache_get_fragment / quicrq_fragment_cache_get_fragment:
picosplay_find with the exact key. -/
def quicrq_relay_cache_get_fragment (c : CacheState) (g o off : Nat) : Option Fragment :=
  c.fragments.find? (fun f => fragKeyEq f g o off)

/-- Shared tail of the cache-progress loop body (the is_expected block):
advance the frontier over the examined fragment. -/
def progressAdvance (c : CacheState) (f : Fragment) : CacheState :=
  if f.is_last_fragment then
    { c with next_object_id := c.next_object_id + 1, next_offset := 0 }
  else
    { c with next_offset := c.next_offset + f.data_length }

/-- One iteration of the loop body of quicrq_relay_cache_progress /
quicrq_fragment_cache_progress: examine one fragment, update the
(next_group_id, next_object_id, next_offset) frontier, and report whether
the fragment was expected (the loop continues) or not (the loop breaks). -/
def progressStep (c : CacheState) (f : Fragment) : CacheState × Bool :=
  if f.group_id = c.next_group_id ∧ f.object_id = c.next_object_id ∧
      f.offset = c.next_offset then
    (progressAdvance c f, true)
  else if f.group_id = c.next_group_id + 1 ∧ f.object_id = 0 ∧ f.offset = 0 ∧
      0 < c.next_object_id ∧ c.next_offset = 0 ∧
      c.next_object_id = f.nb_objects_previous_group then
    (progressAdvance
      { c with next_group_id := c.next_group_id + 1, next_object_id := 0, next_offset := 0 }
      f, true)
  else
    (c, false)

/-- The do/while of quicrq_relay_cache_progress, walking picosplay_next
from the starting node: a structural walk along the in-order suffix. -/
def progressLoop : CacheState → List Fragment → CacheState
  | c, [] => c
  | c, f :: rest =>
    let r := progressStep c f
    if r.2 then progressLoop r.1 rest else r.1

/-- quicrq_relay_cache_progress / quicrq_fragment_cache_progress, started
at the node with index i in the in-order traversal. -/
def quicrq_relay_cache_progress (c : CacheState) (i : Nat) : CacheState :=
  progressLoop c (c.fragments.drop i)

/-- quicrq_relay_add_fragment_to_cache / quicrq_fragment_add_to_cache
(allocation assumed to succeed; the claims quantify over successful
calls). Builds the record, inserts it in the tree, then runs the cache
progress from the inserted node. Returns the new cache, the insertion
index and the record that was inserted. -/
def quicrq_relay_add_fragment_to_cache (c : CacheState)
    (group_id object_id offset queue_delay flags nb_objects_previous_group : Nat)
    (is_last_fragment : Bool) (data_length current_time : Nat) :
    CacheState × Nat × Fragment :=
  let f : Fragment := {
    group_id := group_id, object_id := object_id, offset := offset,
    data_length := data_length, queue_delay := queue_delay, flags := flags,
    nb_objects_previous_group := nb_objects_previous_group,
    is_last_fragment := is_last_fragment, cache_time := current_time }
  let r := picosplay_insert c.fragments f
  let c' := { c with fragments := r.1 }
  (quicrq_relay_cache_progress c' r.2, r.2, f)

/-- State of the merge loop of quicrq_relay_propose_fragment_to_cache /
quicrq_fragment_propose_to_cache. `cur` is the node last_fragment_node as
an index in the sorted traversal (none = NULL). `inserted` records, in
order, the fragments added by this call. -/
structure ProposeLoopState where
  cache : CacheState
  cur : Option Nat
  group_id : Nat
  object_id : Nat
  offset : Nat
  queue_delay : Nat
  flags : Nat
  nb_objects_previous_group : Nat
  is_last_fragment : Bool
  data_length : Nat
  cache_time : Nat
  data_was_added : Bool
  inserted : List Fragment
  deriving Repr, DecidableEq

/-- Pointer stability across picosplay_insert: a node held at index c
moves to c+1 when the insertion lands at or before it. -/
def bumpCur (cur : Option Nat) (i : Nat) : Option Nat :=
  match cur with
  | none => none
  | some c => if i ≤ c then some (c + 1) else some c

/-- picosplay_previous on a held node: the in-order predecessor. -/
def prevIdx : Option Nat → Option Nat
  | none => none
  | some 0 => none
  | some (c + 1) => some c

/-- First branch of the merge loop: insert what remains of the arriving
fragment as a whole and mark done (data_length = 0). -/
def proposeInsertWhole (s : ProposeLoopState) : ProposeLoopState :=
  let r := quicrq_relay_add_fragment_to_cache s.cache s.group_id s.object_id
    s.offset s.queue_delay s.flags s.nb_objects_previous_group
    s.is_last_fragment s.data_length s.cache_time
  { s with cache := r.1, cur := bumpCur s.cur r.2.1, data_length := 0,
           data_was_added := true, inserted := s.inserted ++ [r.2.2] }

/-- One execution of the do/while body of
quicrq_relay_propose_fragment_to_cache / quicrq_fragment_propose_to_cache. -/
def proposeStepBody (s : ProposeLoopState) : ProposeLoopState :=
  match s.cur.bind (fun c => s.cache.fragments.get? c) with
  | none => proposeInsertWhole s
  | some f =>
    if f.group_id ≠ s.group_id ∨ f.object_id ≠ s.object_id ∨
        f.offset + f.data_length < s.offset then
      proposeInsertWhole s
    else
      let previous_last_byte := f.offset + f.data_length
      let s1 :=
        if previous_last_byte < s.offset + s.data_length then
          let added_length := s.offset + s.data_length - previous_last_byte
          let r := quicrq_relay_add_fragment_to_cache s.cache s.group_id
            s.object_id s.offset s.queue_delay s.flags
            s.nb_objects_previous_group s.is_last_fragment added_length
            s.cache_time
          { s with cache := r.1, cur := bumpCur s.cur r.2.1,
                   data_length := s.data_length - added_length,
                   nb_objects_previous_group := 0, data_was_added := true,
                   inserted := s.inserted ++ [r.2.2] }
        else s
      if f.offset ≤ s1.offset then
        { s1 with data_length := 0 }
      else
        let s2 :=
          if f.offset < s1.offset + s1.data_length then
            { s1 with data_length := f.offset - s1.offset }
          else s1
        { s2 with cur := prevIdx s2.cur }

/-- The do/while driver: run the body, then continue while data_length > 0.
Fuel bounds the iteration count; quicrq_relay_propose_fragment_to_cache
supplies enough fuel for the loop to run to completion (theorem
quicrq_c9_propose_terminates). -/
def proposeLoop : Nat → ProposeLoopState → ProposeLoopState
  | 0, s => s
  | fuel + 1, s =>
    let s' := proposeStepBody s
    if 0 < s'.data_length then proposeLoop fuel s' else s'

/-- Walk of the object-completion check at the end of propose: from the
node below (g, o, UINT64_MAX), walk picosplay_previous while the records
chain contiguously down to offset 0. `poff` is previous_offset, `l` the
reversed prefix of the traversal before the current node. -/
def completionWalk : List Fragment → Nat → Nat → Nat → Bool
  | _, _, _, 0 => true
  | [], _, _, _ => false
  | f :: rest, g, o, poff =>
    if f.group_id ≠ g ∨ f.object_id ≠ o ∨ f.offset + f.data_length < poff then
      false
    else
      completionWalk rest g o f.offset

/-- Completion check at the end of propose (nb_object_received update). -/
def proposeCompletionCheck (c : CacheState) (g o : Nat) : CacheState :=
  match picosplay_find_previous_idx c.fragments g o UINT64_MAX with
  | none => c
  | some idx =>
    match c.fragments.get? idx with
    | none => c
    | some f0 =>
      let ok := f0.is_last_fragment &&
        completionWalk (c.fragments.take idx).reverse g o f0.offset
      if ok then { c with nb_object_received := c.nb_object_received + 1 } else c

/-- quicrq_relay_propose_fragment_to_cache / quicrq_fragment_propose_to_cache,
also returning the list of records inserted by the call. -/
def quicrq_relay_propose_fragment_to_cache_ins (c : CacheState)
    (group_id object_id offset queue_delay flags nb_objects_previous_group : Nat)
    (is_last_fragment : Bool) (data_length current_time : Nat) :
    CacheState × List Fragment :=
  if group_id < c.first_group_id ∨
      (group_id = c.first_group_id ∧ object_id < c.first_object_id) then
    (c, [])
  else
    let s0 : ProposeLoopState := {
      cache := c,
      cur := picosplay_find_previous_idx c.fragments group_id object_id UINT64_MAX,
      group_id := group_id, object_id := object_id, offset := offset,
      queue_delay := queue_delay, flags := flags,
      nb_objects_previous_group := nb_objects_previous_group,
      is_last_fragment := is_last_fragment, data_length := data_length,
      cache_time := current_time, data_was_added := false, inserted := [] }
    let s := proposeLoop (data_length + c.fragments.length + 2) s0
    if s.data_was_added then
      (proposeCompletionCheck s.cache group_id object_id, s.inserted)
    else
      (s.cache, s.inserted)

/-- quicrq_relay_propose_fragment_to_cache / quicrq_fragment_propose_to_cache. -/
def quicrq_relay_propose_fragment_to_cache (c : CacheState)
    (group_id object_id offset queue_delay flags nb_objects_previous_group : Nat)
    (is_last_fragment : Bool) (data_length current_time : Nat) : CacheState :=
  (quicrq_relay_propose_fragment_to_cache_ins c group_id object_id offset
    queue_delay flags nb_objects_previous_group is_last_fragment data_length
    current_time).1

/-- quicrq_relay_learn_start_point / quicrq_fragment_cache_learn_start_point. -/
def quicrq_relay_learn_start_point (c : CacheState)
    (start_group_id start_object_id : Nat) : CacheState :=
  let c1 := { c with first_group_id := start_group_id,
                     first_object_id := start_object_id }
  let c2 :=
    if c1.next_group_id < start_group_id ∨
        (c1.next_group_id = start_group_id ∧
          c1.next_object_id < start_object_id) then
      { c1 with next_group_id := start_group_id,
                next_object_id := start_object_id }
    else c1
  { c2 with fragments := c2.fragments.dropWhile (fun f =>
      !(decide (start_group_id < f.group_id) ||
        (decide (f.group_id = start_group_id) &&
          decide (start_object_id ≤ f.object_id)))) }

/-- Inner walk of quicrq_relay_cache_media_purge: verify that the fragments
following the first one chain contiguously, are all old enough, and reach a
last fragment. -/
def purgeWalk : List Fragment → Nat → Nat → Nat → Nat → Bool → Bool
  | [], _, _, _, _, last_found => last_found
  | nf :: rest, obj, noff, now, dmax, last_found =>
    if nf.object_id ≠ obj ∨ now < nf.cache_time + dmax ∨ nf.offset ≠ noff then
      last_found
    else if nf.is_last_fragment then
      true
    else
      purgeWalk rest obj (noff + nf.data_length) now dmax last_found

/-- The should_delete computation of one round of
quicrq_relay_cache_media_purge over the first fragment f of the tree. -/
def purgeShouldDelete (c : CacheState) (f : Fragment) (rest : List Fragment)
    (current_time cache_duration_max : Nat) : Bool :=
  if c.is_closed then true
  else if f.object_id ≠ c.first_object_id ∧ f.offset = 0 then
    purgeWalk rest f.object_id f.data_length current_time
      cache_duration_max f.is_last_fragment
  else false

/-- quicrq_relay_cache_media_purge. The outer while loop is given fuel: the
C loop repeats its examination of the first fragment verbatim when
should_delete comes out false, so the model stops after `fuel` rounds
instead (the cache outcome of the extra identical rounds is unchanged). -/
def quicrq_relay_cache_media_purge : Nat → CacheState → Nat → Nat → Nat → CacheState
  | 0, c, _, _, _ => c
  | fuel + 1, c, current_time, cache_duration_max, first_object_id_kept =>
    match c.fragments with
    | [] => c
    | f :: rest =>
      if first_object_id_kept ≤ f.object_id ∨
          current_time < f.cache_time + cache_duration_max then
        c
      else
        if purgeShouldDelete c f rest current_time cache_duration_max then
          let c1 := { c with first_object_id := f.object_id + 1 }
          let c2 := { c1 with fragments := c1.fragments.dropWhile (fun fr =>
            decide (fr.object_id < c1.first_object_id)) }
          quicrq_relay_cache_media_purge fuel c2 current_time
            cache_duration_max first_object_id_kept
        else
          quicrq_relay_cache_media_purge fuel c current_time
            cache_duration_max first_object_id_kept

/-- Derivation of the final point and closing of the cache: the
quicrq_media_close branch of quicrq_relay_consumer_cb. -/
def quicrq_relay_consumer_close (c : CacheState) (current_time : Nat) : CacheState :=
  let c1 :=
    if c.final_group_id = 0 ∧ c.final_object_id = 0 then
      let ca := { c with cache_delete_time := current_time + 30000000 }
      if ca.next_offset = 0 then
        { ca with final_group_id := ca.next_group_id,
                  final_object_id := ca.next_object_id }
      else if 1 < ca.next_object_id then
        { ca with final_group_id := ca.next_group_id,
                  final_object_id := ca.next_object_id - 1 }
      else
        match picosplay_find_previous ca.fragments ca.next_group_id 0 0 with
        | some f =>
          { ca with final_group_id := f.group_id,
                    final_object_id := f.object_id }
        | none =>
          { ca with final_group_id := ca.first_group_id,
                    final_object_id := ca.first_object_id }
    else
      { c with cache_delete_time := current_time + 3000000 }
  { c1 with is_closed := true }

/-- quicrq_media_final_object_id branch of quicrq_relay_consumer_cb:
record the final point. -/
def quicrq_relay_consumer_learn_final_point (c : CacheState) (g o : Nat) : CacheState :=
  { c with final_group_id := g, final_object_id := o }

/-- The cache operations of the specification (propose / add fragment /
frontier progress / learn start point / learn end point / purge). -/
inductive CacheOp where
  | propose (group_id object_id offset queue_delay flags nb_objects_previous_group : Nat)
      (is_last_fragment : Bool) (data_length current_time : Nat)
  | add (group_id object_id offset queue_delay flags nb_objects_previous_group : Nat)
      (is_last_fragment : Bool) (data_length current_time : Nat)
  | progress (i : Nat)
  | learnStart (g o : Nat)
  | learnEnd (g o : Nat)
  | purge (fuel current_time cache_duration_max first_object_id_kept : Nat)

def applyCacheOp : CacheOp → CacheState → CacheState
  | .propose g o off qd fl nbp last len t, c =>
    quicrq_relay_propose_fragment_to_cache c g o off qd fl nbp last len t
  | .add g o off qd fl nbp last len t, c =>
    (quicrq_relay_add_fragment_to_cache c g o off qd fl nbp last len t).1
  | .progress i, c => quicrq_relay_cache_progress c i
  | .learnStart g o, c => quicrq_relay_learn_start_point c g o
  | .learnEnd g o, c => quicrq_relay_consumer_learn_final_point c g o
  | .purge fuel now dmax kept, c =>
    quicrq_relay_cache_media_purge fuel c now dmax kept

/-- The contiguous-receive frontier of a cache. -/
def nextTriple (c : CacheState) : Nat × Nat × Nat :=
  (c.next_group_id, c.next_object_id, c.next_offset)

/-- Lexicographic order on (next_group_id, next_object_id, next_offset). -/
def tripleLe (a b : Nat × Nat × Nat) : Prop :=
  a.1 < b.1 ∨ (a.1 = b.1 ∧ (a.2.1 < b.2.1 ∨ (a.2.1 = b.2.1 ∧ a.2.2 ≤ b.2.2)))

/-- Byte-range overlap of two records of the same object. -/
def rangesOverlap (a b : Fragment) : Bool :=
  decide (a.group_id = b.group_id) && decide (a.object_id = b.object_id) &&
    decide (a.offset < b.offset + b.data_length) &&
    decide (b.offset < a.offset + a.data_length)

/-- Whether two distinct records of the fragment list overlap. -/
def listHasOverlap : List Fragment → Bool
  | [] => false
  | f :: rest => rest.any (fun g => rangesOverlap f g) || listHasOverlap rest

/-!
Publisher state machine. struct st_quicrq_relay_publisher_context_t /
st_quicrq_fragment_publisher_context_t, with the per-object send tree
(struct st_quicrq_relay_publisher_object_state_t) modelled as its sorted
in-order traversal, keyed by (group_id, object_id); keys in that tree are
unique because a record is only added after a failed lookup.
-/

/-- Per-object send record of the datagram publisher. -/
structure PublisherObjectState where
  group_id : Nat
  object_id : Nat
  bytes_sent : Nat := 0
  final_offset : Nat := 0
  is_dropped : Bool := false
  is_sent : Bool := false
  nb_objects_previous_group : Nat := 0
  deriving Repr, DecidableEq

/-- Publisher (reader) context. current_fragment is a copy of the cached
record the reader points at (the modelled routines only read its fields). -/
structure PublisherContext where
  current_group_id : Nat := 0
  current_object_id : Nat := 0
  current_offset : Nat := 0
  current_fragment : Option Fragment := none
  length_sent : Nat := 0
  is_current_fragment_sent : Bool := false
  is_current_object_skipped : Bool := false
  has_backlog : Bool := false
  publisher_object_tree : List PublisherObjectState := []
  deriving Repr, DecidableEq

/-- quicrq_relay_publisher_object_get / quicrq_fragment_publisher_object_get. -/
def quicrq_relay_publisher_object_get (t : List PublisherObjectState)
    (g o : Nat) : Option PublisherObjectState :=
  t.find? (fun p => decide (p.group_id = g) && decide (p.object_id = o))

/-- Strict key order of the publisher object tree. -/
def pubObjLt (a : PublisherObjectState) (g o : Nat) : Bool :=
  decide (a.group_id < g) ||
    (decide (a.group_id = g) && decide (a.object_id < o))

/-- quicrq_relay_publisher_object_add / quicrq_fragment_publisher_object_add:
insert a zeroed record at its key position. -/
def quicrq_relay_publisher_object_add : List PublisherObjectState → Nat → Nat →
    List PublisherObjectState
  | [], g, o => [{ group_id := g, object_id := o }]
  | x :: xs, g, o =>
    if pubObjLt x g o then x :: quicrq_relay_publisher_object_add xs g o
    else { group_id := g, object_id := o } :: x :: xs

/-- Replace the record with the given key. -/
def pubObjReplace (t : List PublisherObjectState) (p : PublisherObjectState) :
    List PublisherObjectState :=
  t.map (fun q =>
    if decide (q.group_id = p.group_id) && decide (q.object_id = p.object_id)
    then p else q)

/-- quicrq_relay_datagram_publisher_object_prune /
quicrq_fragment_datagram_publisher_object_prune: drop the leading record
while it is sent and its successor follows it in sequence. -/
def quicrq_relay_datagram_publisher_object_prune :
    List PublisherObjectState → List PublisherObjectState
  | [] => []
  | [x] => [x]
  | x :: y :: rest =>
    if x.is_sent &&
        ((decide (y.group_id = x.group_id) && decide (y.object_id = x.object_id + 1)) ||
          (decide (y.group_id = x.group_id + 1) && decide (y.object_id = 0) &&
            decide (y.nb_objects_previous_group = x.object_id + 1))) then
      quicrq_relay_datagram_publisher_object_prune (y :: rest)
    else
      x :: y :: rest

/-- quicrq_relay_datagram_publisher_object_update /
quicrq_fragment_datagram_publisher_object_update (allocation assumed to
succeed). -/
def quicrq_relay_datagram_publisher_object_update (m : PublisherContext)
    (should_skip is_last_fragment : Bool) (next_offset copied : Nat) :
    PublisherContext :=
  match m.current_fragment with
  | none => m
  | some frag =>
    let t0 :=
      match quicrq_relay_publisher_object_get m.publisher_object_tree
          frag.group_id frag.object_id with
      | some _ => m.publisher_object_tree
      | none => quicrq_relay_publisher_object_add m.publisher_object_tree
          frag.group_id frag.object_id
    match quicrq_relay_publisher_object_get t0 frag.group_id frag.object_id with
    | none => m
    | some p0 =>
      let p1 := { p0 with bytes_sent := p0.bytes_sent + copied }
      let p2 := if is_last_fragment then { p1 with final_offset := next_offset }
                else p1
      let p3 := { p2 with is_dropped := should_skip }
      let p4 :=
        if 0 < frag.nb_objects_previous_group then
          { p3 with nb_objects_previous_group := frag.nb_objects_previous_group }
        else p3
      if (is_last_fragment && decide (next_offset ≤ copied)) ||
          (decide (0 < p4.final_offset) &&
            decide (p4.final_offset ≤ p4.bytes_sent)) then
        let p5 := { p4 with is_sent := true }
        { m with publisher_object_tree :=
            quicrq_relay_datagram_publisher_object_prune (pubObjReplace t0 p5) }
      else
        { m with publisher_object_tree := pubObjReplace t0 p4 }

/-- Datagram header at the field level: the arguments handed to
quicrq_datagram_header_encode (the encoder itself lives in the protocol
framing module outside src/; the emitted header carries exactly these
fields, and its encoded size is passed to the model as the parameter
h_size). -/
structure DatagramHeader where
  datagram_stream_id : Nat
  group_id : Nat
  object_id : Nat
  offset : Nat
  queue_delay : Nat
  flags : Nat
  nb_objects_previous_group : Nat
  is_last_fragment : Bool
  deriving Repr, DecidableEq

/-- A datagram handed to the transport: header fields plus the number of
payload bytes copied after the header. -/
structure SentDatagram where
  header : DatagramHeader
  payload_length : Nat
  deriving Repr, DecidableEq

/-- The header fields of a skip placeholder datagram for a fragment, as
the specification describes them: flags 0xff, offset 0, last fragment. -/
def skipHeader (datagram_stream_id : Nat) (frag : Fragment) : DatagramHeader := {
  datagram_stream_id := datagram_stream_id, group_id := frag.group_id,
  object_id := frag.object_id, offset := 0, queue_delay := frag.queue_delay,
  flags := 0xff, nb_objects_previous_group := frag.nb_objects_previous_group,
  is_last_fragment := true }

/-- quicrq_fragment_datagram_publisher_send_fragment (unnamed fragment
cache module). stream_ctx is taken as NULL, a case the code supports (the
prepare function is documented as stream-context independent), so
quicrq_datagram_ack_init is not invoked; the emitted datagram does not
depend on it. The re-encoded header of the truncated-last-fragment case is
one byte for the cleared is_last flag, so its size equals h_size as the
code asserts. Returns the updated context and the emitted datagram, if
any. -/
def quicrq_fragment_datagram_publisher_send_fragment (m : PublisherContext)
    (datagram_stream_id space h_size : Nat) (should_skip : Bool) :
    PublisherContext × Option SentDatagram :=
  match m.current_fragment with
  | none => (m, none)
  | some frag =>
    let offset := if should_skip then 0 else frag.offset + m.length_sent
    let flags := if should_skip then 0xff else frag.flags
    let is_last_fragment0 := if should_skip then true else frag.is_last_fragment
    if space < h_size then
      (m, none)
    else
      let r :=
        if !should_skip && decide (0 < frag.data_length) then
          let available := frag.data_length - m.length_sent
          let copied := space - h_size
          if available ≤ copied then (available, is_last_fragment0)
          else if is_last_fragment0 then (copied, false)
          else (copied, is_last_fragment0)
        else (0, is_last_fragment0)
      let copied := r.1
      let is_last_fragment := r.2
      if 0 < copied || should_skip || frag.data_length = 0 then
        let header : DatagramHeader := {
          datagram_stream_id := datagram_stream_id,
          group_id := frag.group_id, object_id := frag.object_id,
          offset := offset, queue_delay := frag.queue_delay, flags := flags,
          nb_objects_previous_group := frag.nb_objects_previous_group,
          is_last_fragment := is_last_fragment }
        let m1 := if 0 < copied then
            { m with length_sent := m.length_sent + copied } else m
        let m2 := { m1 with is_current_fragment_sent :=
          (m1.is_current_fragment_sent || should_skip ||
            decide (frag.data_length ≤ m1.length_sent)) }
        let m3 := quicrq_relay_datagram_publisher_object_update m2 should_skip
          is_last_fragment (offset + copied) copied
        (m3, some { header := header, payload_length := copied })
      else
        (m, none)

/-- quicrq_relay_datagram_publisher_send_fragment (src/lib/relay.c). The
only difference from the fragment-cache version above is the offset line:
relay.c computes offset = current_fragment->offset + length_sent without
zeroing it when should_skip is set. -/
def quicrq_relay_datagram_publisher_send_fragment (m : PublisherContext)
    (datagram_stream_id space h_size : Nat) (should_skip : Bool) :
    PublisherContext × Option SentDatagram :=
  match m.current_fragment with
  | none => (m, none)
  | some frag =>
    let offset := frag.offset + m.length_sent
    let flags := if should_skip then 0xff else frag.flags
    let is_last_fragment0 := if should_skip then true else frag.is_last_fragment
    if space < h_size then
      (m, none)
    else
      let r :=
        if !should_skip && decide (0 < frag.data_length) then
          let available := frag.data_length - m.length_sent
          let copied := space - h_size
          if available ≤ copied then (available, is_last_fragment0)
          else if is_last_fragment0 then (copied, false)
          else (copied, is_last_fragment0)
        else (0, is_last_fragment0)
      let copied := r.1
      let is_last_fragment := r.2
      if 0 < copied || should_skip || frag.data_length = 0 then
        let header : DatagramHeader := {
          datagram_stream_id := datagram_stream_id,
          group_id := frag.group_id, object_id := frag.object_id,
          offset := offset, queue_delay := frag.queue_delay, flags := flags,
          nb_objects_previous_group := frag.nb_objects_previous_group,
          is_last_fragment := is_last_fragment }
        let m1 := if 0 < copied then
            { m with length_sent := m.length_sent + copied } else m
        let m2 := { m1 with is_current_fragment_sent :=
          (m1.is_current_fragment_sent || should_skip ||
            decide (frag.data_length ≤ m1.length_sent)) }
        let m3 := quicrq_relay_datagram_publisher_object_update m2 should_skip
          is_last_fragment (offset + copied) copied
        (m3, some { header := header, payload_length := copied })
      else
        (m, none)

/-!
Stream-mode publisher: the quicrq_media_source_get_data branch of
quicrq_relay_publisher_fn / quicrq_fragment_publisher_fn.
-/

/-- Output parameters of the get_data call. flags is only written when a
fragment is reported (in C the caller's byte is left untouched otherwise),
so it is an Option here. -/
structure GetDataResult where
  data_length : Nat := 0
  flags : Option Nat := none
  is_new_group : Bool := false
  is_last_fragment : Bool := false
  is_media_finished : Bool := false
  is_still_active : Bool := false
  has_backlog : Bool := false
  deriving Repr, DecidableEq

/-- Cursor-resolution phase of get_data: the skip-resolution branch and the
current_fragment lookup (with the next-group probe). Returns the updated
context and the is_new_group flag. -/
def quicrq_relay_publisher_resolve (cache : CacheState) (m : PublisherContext) :
    PublisherContext × Bool :=
  if m.is_current_object_skipped then
    let m1 := { m with current_fragment := (quicrq_relay_cache_get_fragment cache
      m.current_group_id (m.current_object_id + 1) 0) }
    match m1.current_fragment with
    | some _ =>
      ({ m1 with current_object_id := m1.current_object_id + 1,
                 current_offset := 0, is_current_object_skipped := false }, false)
    | none =>
      match quicrq_relay_cache_get_fragment cache (m1.current_group_id + 1) 0 0 with
      | some next_group_fragment =>
        if next_group_fragment.nb_objects_previous_group ≤ m1.current_object_id + 1 then
          ({ m1 with current_group_id := m1.current_group_id + 1,
                     current_object_id := 0, current_offset := 0,
                     is_current_object_skipped := false,
                     current_fragment := some next_group_fragment }, true)
        else (m1, false)
      | none => (m1, false)
  else
    match m.current_fragment with
    | some _ => (m, false)
    | none =>
      let m1 := { m with current_fragment := (quicrq_relay_cache_get_fragment cache
        m.current_group_id m.current_object_id m.current_offset) }
      match m1.current_fragment with
      | some _ => (m1, false)
      | none =>
        if m1.current_offset = 0 then
          match quicrq_relay_cache_get_fragment cache (m1.current_group_id + 1) 0 0 with
          | some next_group_fragment =>
            if next_group_fragment.nb_objects_previous_group ≤ m1.current_object_id then
              ({ m1 with current_fragment := some next_group_fragment,
                         current_group_id := m1.current_group_id + 1,
                         current_object_id := 0, current_offset := 0 }, true)
            else (m1, false)
          | none => (m1, false)
        else (m1, false)

/-- The end-of-media test at the head of the get_data branch: a final
point is recorded and the reader cursor has reached it. -/
def quicrq_relay_publisher_finished (cache : CacheState) (m : PublisherContext) : Prop :=
  (cache.final_group_id ≠ 0 ∨ cache.final_object_id ≠ 0) ∧
    (cache.final_group_id < m.current_group_id ∨
      (m.current_group_id = cache.final_group_id ∧
        cache.final_object_id ≤ m.current_object_id))

instance (cache : CacheState) (m : PublisherContext) :
    Decidable (quicrq_relay_publisher_finished cache m) :=
  inferInstanceAs (Decidable ((cache.final_group_id ≠ 0 ∨ cache.final_object_id ≠ 0) ∧
    (cache.final_group_id < m.current_group_id ∨
      (m.current_group_id = cache.final_group_id ∧
        cache.final_object_id ≤ m.current_object_id))))

/-- quicrq_media_source_get_data branch of quicrq_relay_publisher_fn /
quicrq_fragment_publisher_fn. data_is_null models calling with data ==
NULL (report the sizes without consuming). -/
def quicrq_relay_publisher_get_data (cache : CacheState) (m : PublisherContext)
    (data_is_null : Bool) (data_max_size : Nat) :
    PublisherContext × GetDataResult :=
  if quicrq_relay_publisher_finished cache m then
    (m, { is_media_finished := true })
  else
    let rm := quicrq_relay_publisher_resolve cache m
    let m1 := rm.1
    let is_new_group := rm.2
    match m1.current_fragment with
    | none => (m1, { is_new_group := is_new_group })
    | some frag =>
      let available := frag.data_length - m1.length_sent
      let rc :=
        if available ≤ data_max_size then (available, true, frag.is_last_fragment)
        else (data_max_size, false, false)
      let copied := rc.1
      let end_of_fragment := rc.2.1
      let is_last_fragment := rc.2.2
      let rb :=
        if 0 < m1.current_offset then (m1.has_backlog, m1)
        else if m1.current_group_id < cache.next_group_id ∨
            (m1.current_group_id = cache.next_group_id ∧
              m1.current_object_id + 1 < cache.next_object_id) then
          (true, { m1 with has_backlog := true })
        else
          (false, { m1 with has_backlog := false })
      let backlog := rb.1
      let m2 := rb.2
      let out : GetDataResult := {
        data_length := copied, flags := some frag.flags,
        is_new_group := is_new_group, is_last_fragment := is_last_fragment,
        is_still_active := true, has_backlog := backlog }
      if data_is_null then
        (m2, out)
      else
        let m3 := { m2 with length_sent := m2.length_sent + copied }
        if end_of_fragment then
          if frag.is_last_fragment then
            ({ m3 with current_object_id := m3.current_object_id + 1,
                       current_offset := 0, length_sent := 0,
                       current_fragment := none }, out)
          else
            ({ m3 with current_offset := m3.current_offset + frag.data_length,
                       length_sent := 0, current_fragment := none }, out)
        else
          (m3, out)

/-!
Datagram ack tracker (the older full module in the unnamed sources): tree
of st_quicrq_datagram_ack_state_t keyed by (object_id, object_offset),
modelled as its in-order traversal.
-/

/-- Datagram ack record, from struct st_quicrq_datagram_ack_state_t. -/
structure DatagramAckState where
  object_id : Nat
  object_offset : Nat
  length : Nat := 0
  is_last_fragment : Bool := false
  is_acked : Bool := false
  fec_needed : Bool := false
  last_sent_time : Nat := 0
  deriving Repr, DecidableEq

/-- quicrq_datagram_ack_find: picosplay_find by (object_id, object_offset). -/
def quicrq_datagram_ack_find (t : List DatagramAckState) (o off : Nat) :
    Option DatagramAckState :=
  t.find? (fun r => decide (r.object_id = o) && decide (r.object_offset = off))

/-- quicrq_datagram_handle_lost. The call to quicrq_datagram_handle_repeat
is represented by its effect on the record and by the returned flag: the
record's last_sent_time is stamped with the current time and a repeat
datagram is queued (the second component is true). The size-based split
that handle_repeat performs on oversized datagrams does not bear on when a
repeat is queued and is not modelled. -/
def quicrq_datagram_handle_lost (t : List DatagramAckState)
    (object_id object_offset sent_time current_time : Nat) :
    List DatagramAckState × Bool :=
  match quicrq_datagram_ack_find t object_id object_offset with
  | none => (t, false)
  | some found =>
    if !found.is_acked && decide (found.last_sent_time ≤ sent_time + 1000) then
      (t.map (fun r =>
        if decide (r.object_id = object_id) &&
            decide (r.object_offset = object_offset) then
          { r with fec_needed := true, last_sent_time := current_time }
        else r), true)
    else
      (t, false)

/-!
Relay cache management: quicrq_manage_relay_cache, per relay-created
source.
-/

/-- A relay-created media source as quicrq_manage_relay_cache sees it: its
cache and whether a reader stream is attached (srce_ctx->first_stream). -/
structure RelaySourceCtx where
  cache : CacheState
  has_reader : Bool
  deriving Repr, DecidableEq

/-- The deletion decision of quicrq_manage_relay_cache over one
relay-created source, after the purge step: if the cache is closed and
empty, delete; else if it is closed and has no reader, delete once
current_time reaches cache_delete_time. -/
def quicrq_manage_relay_cache_decision (cache : CacheState) (has_reader : Bool)
    (current_time : Nat) : Bool × CacheState :=
  if cache.is_closed then
    if cache.fragments.isEmpty then (true, cache)
    else if !has_reader then
      if cache.cache_delete_time ≤ current_time then (true, cache)
      else (false, cache)
    else (false, cache)
  else (false, cache)

/-- The per-source step of quicrq_manage_relay_cache, executed when the
management pass runs (relay configured, and cache_duration_max > 0 or
is_cache_closing_needed): purge when a cache duration is configured, then
decide deletion. Returns whether the source is deleted and the cache after
the purge step. -/
def quicrq_manage_relay_cache_source (cache_duration_max : Nat)
    (src : RelaySourceCtx) (current_time : Nat) : Bool × CacheState :=
  let cache :=
    if 0 < cache_duration_max then
      quicrq_relay_cache_media_purge (src.cache.fragments.length + 1) src.cache
        current_time cache_duration_max UINT64_MAX
    else src.cache
  quicrq_manage_relay_cache_decision cache src.has_reader current_time

/-!
Auxiliary notions used by the theorems: the key order as a Prop, the
sortedness invariant of the in-order traversals, and the termination
measure of the propose merge loop.
-/

/-- The key of a fragment record. -/
def keyTriple (f : Fragment) : Nat × Nat × Nat :=
  (f.group_id, f.object_id, f.offset)

/-- Strict lexicographic order on keys, as a Prop. -/
def lt3 (x y : Nat × Nat × Nat) : Prop :=
  x.1 < y.1 ∨ (x.1 = y.1 ∧ (x.2.1 < y.2.1 ∨ (x.2.1 = y.2.1 ∧ x.2.2 < y.2.2)))

/-- The in-order traversal is sorted by key (what being a search tree
means for the splay). -/
def cacheSorted (l : List Fragment) : Prop :=
  l.Pairwise (fun a b => fragLt b a = false)

/-- Key uniqueness of the datagram ack tree. -/
def ackKeysUnique (t : List DatagramAckState) : Prop :=
  t.Pairwise (fun a b => a.object_id ≠ b.object_id ∨ a.object_offset ≠ b.object_offset)

/-- Position of a held tree node: 0 for NULL, index + 1 otherwise. -/
def posNat : Option Nat → Nat
  | none => 0
  | some c => c + 1

/-- The (node position, remaining data_length) pair of a merge-loop state. -/
def proposePair (s : ProposeLoopState) : Nat × Nat :=
  (posNat s.cur, s.data_length)

/-- A well-founded order on those pairs: the summed measure decreases. -/
def proposePairRel (a b : Nat × Nat) : Prop :=
  a.1 + a.2 < b.1 + b.2

/-- A concrete publisher context whose current fragment is the first
arrival of object (0, 1) and starts at byte offset 3. -/
def exampleSkipContext : PublisherContext := {
  current_fragment := some { group_id := 0, object_id := 1, offset := 3, data_length := 4, flags := 1 } }

/-- A concrete ack tree: one unacked record for (5, 0), last sent at time
100000. -/
def exampleAckTree : List DatagramAckState :=
  [{ object_id := 5, object_offset := 0, length := 10,
     is_last_fragment := true, last_sent_time := 100000 }]

/-- A concrete relay source: a closed, empty cache whose delete timer has
not yet expired, with a reader stream still attached. -/
def exampleClosedSource : RelaySourceCtx :=
  { cache := { is_closed := true, cache_delete_time := 1000 }, has_reader := true }

/-- A concrete merge-loop state used as a witness input: a one-record tree
holding [5, 10) of object (0, 0), the examined node being that record,
with 3 bytes of [2, 5) still to merge. -/
def exampleLoopState : ProposeLoopState := {
  cache := { fragments := [{ group_id := 0, object_id := 0, offset := 5, data_length := 5 }] },
  cur := some 0, group_id := 0, object_id := 0, offset := 2,
  queue_delay := 0, flags := 0, nb_objects_previous_group := 0,
  is_last_fragment := false, data_length := 3, cache_time := 0,
  data_was_added := false, inserted := [] }

/-- A concrete cache at close time: one fully received object (0, 3), the
frontier stopped mid-object at (1, 1, 5), final point still unset. -/
def exampleCloseCache : CacheState :=
  { fragments := [{ group_id := 0, object_id := 3, offset := 0, data_length := 4, is_last_fragment := true }],
    next_group_id := 1, next_object_id := 1, next_offset := 5 }

/-- A concrete cache for the publisher reader: group 0 has one object, the
single cached fragment opens group 1, and the final point is (1, 0). -/
def exampleReaderCache : CacheState :=
  { fragments := [{ group_id := 1, object_id := 0, offset := 0, data_length := 2, nb_objects_previous_group := 1, is_last_fragment := true }],
    next_group_id := 1, next_object_id := 0, next_offset := 2,
    final_group_id := 1, final_object_id := 0 }

/-- A concrete reader cursor sitting at (0, 1, 0) with no held fragment. -/
def exampleReaderContext : PublisherContext :=
  { current_group_id := 0, current_object_id := 1 }

/-- A freshly opened reader: all cursor fields zero, nothing held. -/
def exampleFreshReader : PublisherContext := {}

/-- A concrete cache and cursor where the null-data read stays below the
final point: the final point is (0, 2) and the cursor reads object (0, 0). -/
def exampleActiveReaderCache : CacheState :=
  { fragments := [{ group_id := 0, object_id := 0, offset := 0, data_length := 3, is_last_fragment := true }],
    next_group_id := 0, next_object_id := 1, next_offset := 0,
    final_group_id := 0, final_object_id := 2 }

/-!
Theorems. Helper lemmas come first, then, for each claim, the theorem (and
witness or counterexample) that settles it.
-/

theorem tripleLe_refl (a : Nat × Nat × Nat) : tripleLe a a :=
  Or.inr ⟨rfl, Or.inr ⟨rfl, Nat.le_refl _⟩⟩

theorem tripleLe_trans {a b c : Nat × Nat × Nat} :
    tripleLe a b → tripleLe b c → tripleLe a c := by
  obtain ⟨a1, a2, a3⟩ := a
  obtain ⟨b1, b2, b3⟩ := b
  obtain ⟨c1, c2, c3⟩ := c
  simp only [tripleLe]
  omega

theorem progressAdvance_le (c : CacheState) (f : Fragment) :
    tripleLe (nextTriple c) (nextTriple (progressAdvance c f)) := by
  unfold progressAdvance
  split
  · exact Or.inr ⟨rfl, Or.inl (Nat.lt_succ_self _)⟩
  · exact Or.inr ⟨rfl, Or.inr ⟨rfl, Nat.le_add_right _ _⟩⟩

theorem progressStep_le (c : CacheState) (f : Fragment) :
    tripleLe (nextTriple c) (nextTriple (progressStep c f).1) := by
  unfold progressStep
  split
  · exact progressAdvance_le c f
  · split
    · refine tripleLe_trans (b := (c.next_group_id + 1, 0, 0)) ?_ ?_
      · exact Or.inl (Nat.lt_succ_self _)
      · exact progressAdvance_le
          { c with next_group_id := c.next_group_id + 1, next_object_id := 0, next_offset := 0 } f
    · exact tripleLe_refl _

theorem progressLoop_le (l : List Fragment) :
    ∀ c : CacheState, tripleLe (nextTriple c) (nextTriple (progressLoop c l)) := by
  induction l with
  | nil => exact fun c => tripleLe_refl _
  | cons f rest ih =>
    intro c
    rw [progressLoop]
    split
    · exact tripleLe_trans (progressStep_le c f) (ih _)
    · exact progressStep_le c f

theorem quicrq_relay_cache_progress_le (c : CacheState) (i : Nat) :
    tripleLe (nextTriple c) (nextTriple (quicrq_relay_cache_progress c i)) :=
  progressLoop_le _ c

theorem quicrq_relay_add_fragment_to_cache_le (c : CacheState)
    (g o off qd fl nbp : Nat) (last : Bool) (len t : Nat) :
    tripleLe (nextTriple c)
      (nextTriple (quicrq_relay_add_fragment_to_cache c g o off qd fl nbp last len t).1) := by
  unfold quicrq_relay_add_fragment_to_cache
  exact quicrq_relay_cache_progress_le
    { c with fragments := (picosplay_insert c.fragments
        { group_id := g, object_id := o, offset := off, data_length := len,
          queue_delay := qd, flags := fl, nb_objects_previous_group := nbp,
          is_last_fragment := last, cache_time := t }).1 }
    (picosplay_insert c.fragments
        { group_id := g, object_id := o, offset := off, data_length := len,
          queue_delay := qd, flags := fl, nb_objects_previous_group := nbp,
          is_last_fragment := last, cache_time := t }).2

theorem proposeInsertWhole_le (s : ProposeLoopState) :
    tripleLe (nextTriple s.cache) (nextTriple (proposeInsertWhole s).cache) := by
  unfold proposeInsertWhole
  exact quicrq_relay_add_fragment_to_cache_le _ _ _ _ _ _ _ _ _ _

theorem proposeStepBody_le (s : ProposeLoopState) :
    tripleLe (nextTriple s.cache) (nextTriple (proposeStepBody s).cache) := by
  unfold proposeStepBody
  split
  · exact proposeInsertWhole_le s
  · rename_i f hmem
    split
    · exact proposeInsertWhole_le s
    · dsimp only
      by_cases hA : f.offset + f.data_length < s.offset + s.data_length
      · rw [if_pos hA]
        split
        · exact quicrq_relay_add_fragment_to_cache_le _ _ _ _ _ _ _ _ _ _
        · split
          · exact quicrq_relay_add_fragment_to_cache_le _ _ _ _ _ _ _ _ _ _
          · exact quicrq_relay_add_fragment_to_cache_le _ _ _ _ _ _ _ _ _ _
      · rw [if_neg hA]
        split
        · exact tripleLe_refl _
        · split
          · exact tripleLe_refl _
          · exact tripleLe_refl _

theorem proposeLoop_le (fuel : Nat) :
    ∀ s : ProposeLoopState,
      tripleLe (nextTriple s.cache) (nextTriple (proposeLoop fuel s).cache) := by
  induction fuel with
  | zero => exact fun s => tripleLe_refl _
  | succ fuel ih =>
    intro s
    rw [proposeLoop]
    split
    · exact tripleLe_trans (proposeStepBody_le s) (ih _)
    · exact proposeStepBody_le s

theorem proposeLoop_le_of_cache (fuel : Nat) (s : ProposeLoopState)
    (c0 : CacheState) (h : s.cache = c0) :
    tripleLe (nextTriple c0) (nextTriple (proposeLoop fuel s).cache) :=
  h ▸ proposeLoop_le fuel s

theorem proposeCompletionCheck_next (c : CacheState) (g o : Nat) :
    nextTriple (proposeCompletionCheck c g o) = nextTriple c := by
  unfold proposeCompletionCheck
  split
  · rfl
  · split
    · rfl
    · dsimp only
      split <;> rfl

theorem quicrq_relay_propose_fragment_to_cache_le (c : CacheState)
    (g o off qd fl nbp : Nat) (last : Bool) (len t : Nat) :
    tripleLe (nextTriple c)
      (nextTriple (quicrq_relay_propose_fragment_to_cache c g o off qd fl nbp last len t)) := by
  unfold quicrq_relay_propose_fragment_to_cache
    quicrq_relay_propose_fragment_to_cache_ins
  split
  · exact tripleLe_refl _
  · dsimp only
    split
    · dsimp only
      rw [proposeCompletionCheck_next]
      exact proposeLoop_le_of_cache _ _ c rfl
    · dsimp only
      exact proposeLoop_le_of_cache _ _ c rfl

theorem quicrq_relay_learn_start_point_le (c : CacheState) (sg so : Nat) :
    tripleLe (nextTriple c) (nextTriple (quicrq_relay_learn_start_point c sg so)) := by
  unfold quicrq_relay_learn_start_point
  dsimp only
  split
  · next h =>
    simp only [nextTriple, tripleLe] at h ⊢
    omega
  · exact tripleLe_refl _

theorem quicrq_relay_cache_media_purge_next (fuel : Nat) :
    ∀ (c : CacheState) (now dmax kept : Nat),
      nextTriple (quicrq_relay_cache_media_purge fuel c now dmax kept) = nextTriple c := by
  induction fuel with
  | zero => intro c now dmax kept; rfl
  | succ fuel ih =>
    intro c now dmax kept
    rw [quicrq_relay_cache_media_purge]
    split
    · rfl
    · split
      · rfl
      · split
        · rw [ih]; rfl
        · rw [ih]

/-- C3: for every cache operation (propose / add fragment / frontier
progress / learn start point / learn end point / purge), the triple
(next_group_id, next_object_id, next_offset), compared lexicographically,
never decreases. -/
theorem c3_frontier_monotonic (op : CacheOp) (c : CacheState) :
    tripleLe (nextTriple c) (nextTriple (applyCacheOp op c)) := by
  cases op with
  | propose g o off qd fl nbp last len t =>
    exact quicrq_relay_propose_fragment_to_cache_le c g o off qd fl nbp last len t
  | add g o off qd fl nbp last len t =>
    exact quicrq_relay_add_fragment_to_cache_le c g o off qd fl nbp last len t
  | progress i => exact quicrq_relay_cache_progress_le c i
  | learnStart g o => exact quicrq_relay_learn_start_point_le c g o
  | learnEnd g o => exact tripleLe_refl _
  | purge fuel now dmax kept =>
    simp only [applyCacheOp]
    rw [quicrq_relay_cache_media_purge_next]
    exact tripleLe_refl _

theorem progressStep_group (c : CacheState) (f : Fragment) :
    (progressStep c f).1.next_group_id = c.next_group_id ∨
    ((progressStep c f).1.next_group_id = c.next_group_id + 1 ∧
      f.group_id = c.next_group_id + 1 ∧ f.object_id = 0 ∧ f.offset = 0 ∧
      c.next_offset = 0 ∧ 0 < c.next_object_id ∧
      c.next_object_id = f.nb_objects_previous_group) := by
  unfold progressStep progressAdvance
  split
  · left
    split <;> rfl
  · split
    · next hc =>
      obtain ⟨hg, ho, hoff, hpos, hnoff, hnb⟩ := hc
      right
      refine ⟨?_, hg, ho, hoff, hnoff, hpos, hnb⟩
      split <;> rfl
    · left; rfl

/-- C2: during frontier advancement, an examined record moves the frontier
into a higher group only to the next group, and only when that record has
key (next_group_id + 1, 0, 0), next_offset is 0, next_object_id > 0, and
next_object_id equals the record's nb_objects_previous_group. -/
theorem c2_group_crossing_conditions (c : CacheState) (f : Fragment)
    (h : (progressStep c f).1.next_group_id ≠ c.next_group_id) :
    (progressStep c f).1.next_group_id = c.next_group_id + 1 ∧
    f.group_id = c.next_group_id + 1 ∧ f.object_id = 0 ∧ f.offset = 0 ∧
    c.next_offset = 0 ∧ 0 < c.next_object_id ∧
    c.next_object_id = f.nb_objects_previous_group :=
  (progressStep_group c f).resolve_left h

/-- Witness for C2: a concrete state in which the crossing fires. -/
theorem c2_group_crossing_conditions_witness :
    (progressStep { next_object_id := 1 }
        { group_id := 1, object_id := 0, offset := 0, data_length := 4,
          nb_objects_previous_group := 1, is_last_fragment := true }).1.next_group_id ≠
      ({ next_object_id := 1 } : CacheState).next_group_id ∧
    (progressStep { next_object_id := 1 }
        { group_id := 1, object_id := 0, offset := 0, data_length := 4,
          nb_objects_previous_group := 1, is_last_fragment := true }).1.next_group_id =
      ({ next_object_id := 1 } : CacheState).next_group_id + 1 :=
  ⟨by decide, (c2_group_crossing_conditions _ _ (by decide)).1⟩

theorem posNat_prevIdx_some (d : Nat) : posNat (prevIdx (some d)) = d := by
  cases d <;> rfl

theorem posNat_prevIdx_bumpCur (c i : Nat) :
    posNat (prevIdx (bumpCur (some c) i)) ≤ c + 1 := by
  simp only [bumpCur]
  split
  · rw [posNat_prevIdx_some]
  · rw [posNat_prevIdx_some]
    omega

theorem proposeStepBody_cur_some (s : ProposeLoopState) (f : Fragment)
    (heq : (s.cur.bind fun c => s.cache.fragments.get? c) = some f) :
    ∃ cidx, s.cur = some cidx := by
  cases hc : s.cur with
  | none => rw [hc] at heq; simp at heq
  | some cidx => exact ⟨cidx, rfl⟩

theorem proposeStepBody_measure (s : ProposeLoopState) (h : 0 < s.data_length) :
    (proposeStepBody s).data_length = 0 ∨
      posNat (proposeStepBody s).cur + (proposeStepBody s).data_length <
        posNat s.cur + s.data_length := by
  unfold proposeStepBody
  split
  · left; rfl
  · rename_i f heq
    split
    · left; rfl
    · rename_i hmatch
      obtain ⟨cidx, hcur⟩ := proposeStepBody_cur_some s f heq
      try dsimp only
      by_cases hA : f.offset + f.data_length < s.offset + s.data_length
      · rw [if_pos hA]
        by_cases hBo : f.offset ≤ s.offset
        · rw [if_pos hBo]
          left; rfl
        · rw [if_neg hBo]
          right
          try dsimp only
          split
          · rename_i htrim
            try dsimp only
            rw [hcur]
            refine lt_of_le_of_lt
              (Nat.add_le_add (posNat_prevIdx_bumpCur cidx _) (Nat.le_refl _)) ?_
            simp only [posNat]
            omega
          · try dsimp only
            rw [hcur]
            refine lt_of_le_of_lt
              (Nat.add_le_add (posNat_prevIdx_bumpCur cidx _) (Nat.le_refl _)) ?_
            simp only [posNat]
            omega
      · rw [if_neg hA]
        by_cases hBo : f.offset ≤ s.offset
        · rw [if_pos hBo]
          left; rfl
        · rw [if_neg hBo]
          right
          try dsimp only
          split
          · rename_i htrim
            try dsimp only
            rw [hcur, posNat_prevIdx_some]
            simp only [posNat]
            omega
          · try dsimp only
            rw [hcur, posNat_prevIdx_some]
            simp only [posNat]
            omega

theorem proposeStepBody_zero (s : ProposeLoopState) (h : s.data_length = 0) :
    (proposeStepBody s).data_length = 0 := by
  unfold proposeStepBody
  split
  · rfl
  · rename_i f heq
    split
    · rfl
    · rename_i hmatch
      dsimp only
      have hA : ¬ (f.offset + f.data_length < s.offset + s.data_length) := by
        rw [not_or] at hmatch
        obtain ⟨-, hmatch2⟩ := hmatch
        rw [not_or] at hmatch2
        obtain ⟨-, hmatch3⟩ := hmatch2
        omega
      rw [if_neg hA]
      by_cases hBo : f.offset ≤ s.offset
      · rw [if_pos hBo]
        try rfl
      · rw [if_neg hBo]
        try dsimp only
        split
        · rename_i htrim
          exfalso
          omega
        · exact h

theorem proposeLoop_reaches_zero (fuel : Nat) :
    ∀ s : ProposeLoopState, s.data_length + posNat s.cur < fuel →
      (proposeLoop fuel s).data_length = 0 := by
  induction fuel with
  | zero => intro s h; omega
  | succ fuel ih =>
    intro s h
    rw [proposeLoop]
    try dsimp only
    split
    · rename_i hpos
      apply ih
      by_cases h0 : 0 < s.data_length
      · rcases proposeStepBody_measure s h0 with hz | hlt
        · omega
        · omega
      · have hz := proposeStepBody_zero s (by omega)
        omega
    · rename_i hpos
      omega

/-- C9: the merge loop of quicrq_relay_propose_fragment_to_cache /
quicrq_fragment_propose_to_cache terminates: every execution of the body
from a state with remaining data either sets the remaining data_length to
0 or strictly decreases the (node position, remaining data_length) pair in
a well-founded order, and with fuel above the measure the loop driver
reaches a state with no remaining data, so the do/while always exits. -/
theorem c9_propose_terminates :
    (∀ s : ProposeLoopState, 0 < s.data_length →
      ((proposeStepBody s).data_length = 0 ∨
        proposePairRel (proposePair (proposeStepBody s)) (proposePair s))) ∧
    WellFounded proposePairRel ∧
    (∀ (fuel : Nat) (s : ProposeLoopState),
      s.data_length + posNat s.cur < fuel →
        (proposeLoop fuel s).data_length = 0) := by
  refine ⟨?_, ?_, proposeLoop_reaches_zero⟩
  · intro s h
    exact proposeStepBody_measure s h
  · have h : proposePairRel = InvImage (· < ·) (fun a : Nat × Nat => a.1 + a.2) := rfl
    rw [h]
    exact InvImage.wf _ (Nat.lt_wfRel.wf)

/-- Witness for C9: the body decrease at a concrete loop state. -/
theorem c9_propose_terminates_witness :
    0 < exampleLoopState.data_length ∧
    ((proposeStepBody exampleLoopState).data_length = 0 ∨
      proposePairRel (proposePair (proposeStepBody exampleLoopState))
        (proposePair exampleLoopState)) :=
  ⟨by decide, c9_propose_terminates.1 exampleLoopState (by decide)⟩

theorem proposeStepBody_inserted (s : ProposeLoopState) :
    (proposeStepBody s).offset = s.offset ∧
    (((proposeStepBody s).inserted = s.inserted ∧
        (proposeStepBody s).nb_objects_previous_group =
          s.nb_objects_previous_group) ∨
      (∃ fr : Fragment, (proposeStepBody s).inserted = s.inserted ++ [fr] ∧
        fr.offset = s.offset ∧
        fr.nb_objects_previous_group = s.nb_objects_previous_group ∧
        ((proposeStepBody s).data_length = 0 ∨
          (proposeStepBody s).nb_objects_previous_group = 0))) := by
  unfold proposeStepBody
  split
  · exact ⟨rfl, Or.inr ⟨_, rfl, rfl, rfl, Or.inl rfl⟩⟩
  · rename_i f heq
    split
    · exact ⟨rfl, Or.inr ⟨_, rfl, rfl, rfl, Or.inl rfl⟩⟩
    · dsimp only
      by_cases hA : f.offset + f.data_length < s.offset + s.data_length
      · rw [if_pos hA]
        by_cases hBo : f.offset ≤ s.offset
        · rw [if_pos hBo]
          exact ⟨rfl, Or.inr ⟨_, rfl, rfl, rfl, Or.inl rfl⟩⟩
        · rw [if_neg hBo]
          dsimp only
          split
          · exact ⟨rfl, Or.inr ⟨_, rfl, rfl, rfl, Or.inr rfl⟩⟩
          · exact ⟨rfl, Or.inr ⟨_, rfl, rfl, rfl, Or.inr rfl⟩⟩
      · rw [if_neg hA]
        by_cases hBo : f.offset ≤ s.offset
        · rw [if_pos hBo]
          exact ⟨rfl, Or.inl ⟨rfl, rfl⟩⟩
        · rw [if_neg hBo]
          dsimp only
          split
          · exact ⟨rfl, Or.inl ⟨rfl, rfl⟩⟩
          · exact ⟨rfl, Or.inl ⟨rfl, rfl⟩⟩

theorem proposeLoop_inserted (fuel : Nat) :
    ∀ s : ProposeLoopState, ∃ u : List Fragment,
      (proposeLoop fuel s).inserted = s.inserted ++ u ∧
      (∀ fr ∈ u, fr.offset = s.offset) ∧
      (u = [] ∨ ∃ f0 rest, u = f0 :: rest ∧
        f0.nb_objects_previous_group = s.nb_objects_previous_group ∧
        ∀ x ∈ rest, x.nb_objects_previous_group = 0) := by
  induction fuel with
  | zero =>
    intro s
    exact ⟨[], by simp [proposeLoop], by simp, Or.inl rfl⟩
  | succ fuel ih =>
    intro s
    rw [proposeLoop]
    try dsimp only
    obtain ⟨hoff, hcase⟩ := proposeStepBody_inserted s
    split
    · rename_i hpos
      obtain ⟨u', hu1, hu2, hu3⟩ := ih (proposeStepBody s)
      rcases hcase with ⟨hins, hnbp⟩ | ⟨fr, hins, hfo, hfn, hrest⟩
      · refine ⟨u', by rw [hu1, hins], ?_, ?_⟩
        · intro x hx
          rw [hu2 x hx, hoff]
        · rcases hu3 with h3 | ⟨f0, rest, hurw, hb, hr⟩
          · exact Or.inl h3
          · exact Or.inr ⟨f0, rest, hurw, by rw [hb, hnbp], hr⟩
      · have hnbp0 : (proposeStepBody s).nb_objects_previous_group = 0 := by
          rcases hrest with h0 | h0
          · omega
          · exact h0
        refine ⟨fr :: u', ?_, ?_, ?_⟩
        · rw [hu1, hins, List.append_assoc]
          rfl
        · intro x hx
          rcases List.mem_cons.mp hx with rfl | hx'
          · exact hfo
          · rw [hu2 x hx', hoff]
        · refine Or.inr ⟨fr, u', rfl, hfn, ?_⟩
          intro x hx
          rcases hu3 with rfl | ⟨f1, r1, hurw, hb1, hr1⟩
          · simp at hx
          · rw [hurw] at hx
            rcases List.mem_cons.mp hx with rfl | hx2
            · rw [hb1, hnbp0]
            · exact hr1 x hx2
    · rcases hcase with ⟨hins, _⟩ | ⟨fr, hins, hfo, hfn, _⟩
      · exact ⟨[], by rw [hins]; simp, by simp, Or.inl rfl⟩
      · refine ⟨[fr], by rw [hins], ?_, Or.inr ⟨fr, [], rfl, hfn, by simp⟩⟩
        intro x hx
        rcases List.mem_cons.mp hx with rfl | hx'
        · exact hfo
        · simp at hx'

/-- C4, amended: in a propose call, every record inserted by the merge
loop has the arriving fragment's original offset as its key offset (so a
record covering offset 0 is inserted only when the arriving offset is 0);
the first inserted record carries the arriving nb_objects_previous_group,
and every later inserted record carries nb_objects_previous_group = 0. -/
theorem c4_amended_nb_prev_on_first_insert (c : CacheState)
    (g o off qd fl nbp : Nat) (last : Bool) (len t : Nat) :
    ((quicrq_relay_propose_fragment_to_cache_ins c g o off qd fl nbp last len t).2.all
        (fun fr => fr.offset == off) = true) ∧
    (match (quicrq_relay_propose_fragment_to_cache_ins c g o off qd fl nbp last len t).2 with
      | [] => True
      | f0 :: rest => f0.nb_objects_previous_group = nbp ∧
          rest.all (fun x => x.nb_objects_previous_group == 0) = true) := by
  unfold quicrq_relay_propose_fragment_to_cache_ins
  split
  · exact ⟨rfl, trivial⟩
  · dsimp only
    obtain ⟨u, hu1, hu2, hu3⟩ := proposeLoop_inserted (len + c.fragments.length + 2)
      { cache := c,
        cur := picosplay_find_previous_idx c.fragments g o UINT64_MAX,
        group_id := g, object_id := o, offset := off, queue_delay := qd,
        flags := fl, nb_objects_previous_group := nbp, is_last_fragment := last,
        data_length := len, cache_time := t, data_was_added := false,
        inserted := [] }
    rw [List.nil_append] at hu1
    have hall : (∀ fr ∈ u, fr.offset = off) := hu2
    have hmatch : u = [] ∨ ∃ f0 rest, u = f0 :: rest ∧
        f0.nb_objects_previous_group = nbp ∧
        ∀ x ∈ rest, x.nb_objects_previous_group = 0 := hu3
    split
    · dsimp only
      rw [hu1]
      constructor
      · rw [List.all_eq_true]
        intro x hx
        rw [beq_iff_eq]
        exact hall x hx
      · rcases hmatch with rfl | ⟨f0, rest, rfl, hb, hr⟩
        · trivial
        · refine ⟨hb, ?_⟩
          rw [List.all_eq_true]
          intro x hx
          rw [beq_iff_eq]
          exact hr x hx
    · dsimp only
      rw [hu1]
      constructor
      · rw [List.all_eq_true]
        intro x hx
        rw [beq_iff_eq]
        exact hall x hx
      · rcases hmatch with rfl | ⟨f0, rest, rfl, hb, hr⟩
        · trivial
        · refine ⟨hb, ?_⟩
          rw [List.all_eq_true]
          intro x hx
          rw [beq_iff_eq]
          exact hr x hx

/-- Counterexample for C4: with records [3, 4) and [5, 10) of object
(0, 0) cached, proposing bytes [2, 15) with nb_objects_previous_group = 7
splits into two inserted records, (offset 2, length 5, nb_prev 7) and
(offset 2, length 1, nb_prev 0): the record carrying nb_prev = 7 does not
cover offset 0, contradicting the claim that nb_prev lands exactly on the
record covering offset 0 and that all other records carry 0. -/
theorem c4_counterexample :
    ((quicrq_relay_propose_fragment_to_cache_ins
        (quicrq_relay_propose_fragment_to_cache
          (quicrq_relay_propose_fragment_to_cache {} 0 0 3 0 0 0 false 1 0)
          0 0 5 0 0 0 false 5 0)
        0 0 2 0 0 7 false 13 0).2.map
      (fun fr => (fr.offset, fr.data_length, fr.nb_objects_previous_group))) =
    [(2, 5, 7), (2, 1, 0)] := by
  decide

/-- C1: the merge of quicrq_relay_propose_fragment_to_cache /
quicrq_fragment_propose_to_cache creates overlapping records. Proposing
bytes [0, 10) of object (0, 0) and then bytes [5, 15) leaves two records
whose ranges [0, 10) and [5, 10) overlap: the second call inserts the
not-yet-covered amount at the arriving offset instead of after the covered
prefix. -/
theorem c1_propose_creates_overlapping_fragments :
    listHasOverlap (quicrq_relay_propose_fragment_to_cache
      (quicrq_relay_propose_fragment_to_cache {} 0 0 0 0 0 0 false 10 0)
      0 0 5 0 0 0 false 10 0).fragments = true := by
  decide

/-- C5: skipping an object. The fragment-cache version
(quicrq_fragment_datagram_publisher_send_fragment) emits, whenever the
header fits the datagram budget, a datagram with flags 0xff, offset 0,
is_last_fragment set and no payload bytes. The relay.c version
(quicrq_relay_datagram_publisher_send_fragment) does not zero the offset:
at a context whose skipped fragment starts at byte 3, it emits the header
with offset 3. -/
theorem c5_skip_datagram :
    (∀ (m : PublisherContext) (dsid space h_size : Nat) (frag : Fragment),
      m.current_fragment = some frag → h_size ≤ space →
      (quicrq_fragment_datagram_publisher_send_fragment m dsid space h_size true).2 =
        some { header := skipHeader dsid frag, payload_length := 0 }) ∧
    (quicrq_relay_datagram_publisher_send_fragment exampleSkipContext 1 20 2 true).2 =
      some { header := { datagram_stream_id := 1, group_id := 0, object_id := 1, offset := 3, queue_delay := 0, flags := 0xff, nb_objects_previous_group := 0, is_last_fragment := true }, payload_length := 0 } := by
  constructor
  · intro m dsid space h_size frag hfrag hs
    have hns : ¬ space < h_size := Nat.not_lt.mpr hs
    unfold quicrq_fragment_datagram_publisher_send_fragment
    rw [hfrag]
    simp [hns, skipHeader]
  · decide

/-- Witness for C5: the skip emission of the fragment-cache version at a
concrete context, via the theorem. -/
theorem c5_skip_datagram_witness :
    (quicrq_fragment_datagram_publisher_send_fragment exampleSkipContext 1 20 2 true).2 =
      some { header := skipHeader 1 { group_id := 0, object_id := 1, offset := 3, data_length := 4, flags := 1 }, payload_length := 0 } :=
  c5_skip_datagram.1 exampleSkipContext 1 20 2
    { group_id := 0, object_id := 1, offset := 3, data_length := 4, flags := 1 }
    rfl (by decide)

theorem ack_find_eq_none (t : List DatagramAckState) (o off : Nat)
    (h : ∀ r ∈ t, r.object_id ≠ o ∨ r.object_offset ≠ off) :
    quicrq_datagram_ack_find t o off = none := by
  unfold quicrq_datagram_ack_find
  rw [List.find?_eq_none]
  intro r hr
  rcases h r hr with h1 | h1 <;> simp [h1]

theorem ack_find_eq_some :
    ∀ (t : List DatagramAckState) (o off : Nat) (r : DatagramAckState),
      ackKeysUnique t → r ∈ t → r.object_id = o → r.object_offset = off →
      quicrq_datagram_ack_find t o off = some r := by
  intro t
  induction t with
  | nil =>
    intro o off r _ hr
    simp at hr
  | cons x xs ih =>
    intro o off r hu hr h1 h2
    unfold quicrq_datagram_ack_find at ih ⊢
    rcases List.mem_cons.mp hr with rfl | hr'
    · have hp : (decide (r.object_id = o) && decide (r.object_offset = off)) = true := by
        simp [h1, h2]
      simp only [List.find?, hp]
    · have hx : (decide (x.object_id = o) && decide (x.object_offset = off)) = false := by
        have hne := (List.pairwise_cons.mp hu).1 r hr'
        rcases hne with hne | hne
        · have hxo : x.object_id ≠ o := by rw [← h1]; exact hne
          simp [hxo]
        · have hxoff : x.object_offset ≠ off := by rw [← h2]; exact hne
          simp [hxoff]
      simp only [List.find?, hx]
      exact ih o off r (List.pairwise_cons.mp hu).2 hr' h1 h2

/-- C6, amended: on a loss event for (object_id, object_offset):
if no ack record exists or the record is already acked, nothing happens;
if the record's last_sent_time is MORE than 1 ms after the reported
sent_time (the fragment was already re-sent after that packet went out),
nothing happens; otherwise fec_needed is set on the record, its
last_sent_time is stamped with the current time, and a repeat transmission
is queued. -/
theorem c6_amended_lost_handling (t : List DatagramAckState)
    (o off sent_time now : Nat) :
    ((∀ r ∈ t, r.object_id ≠ o ∨ r.object_offset ≠ off) →
      quicrq_datagram_handle_lost t o off sent_time now = (t, false)) ∧
    (∀ r : DatagramAckState, ackKeysUnique t → r ∈ t → r.object_id = o →
      r.object_offset = off →
      ((r.is_acked = true →
          quicrq_datagram_handle_lost t o off sent_time now = (t, false)) ∧
        (r.is_acked = false → sent_time + 1000 < r.last_sent_time →
          quicrq_datagram_handle_lost t o off sent_time now = (t, false)) ∧
        (r.is_acked = false → r.last_sent_time ≤ sent_time + 1000 →
          (quicrq_datagram_handle_lost t o off sent_time now).2 = true ∧
          { r with fec_needed := true, last_sent_time := now } ∈
            (quicrq_datagram_handle_lost t o off sent_time now).1 ∧
          ∀ x ∈ t, (x.object_id ≠ o ∨ x.object_offset ≠ off) →
            x ∈ (quicrq_datagram_handle_lost t o off sent_time now).1))) := by
  constructor
  · intro h
    unfold quicrq_datagram_handle_lost
    rw [ack_find_eq_none t o off h]
  · intro r hu hr h1 h2
    have hfind := ack_find_eq_some t o off r hu hr h1 h2
    refine ⟨?_, ?_, ?_⟩
    · intro hacked
      unfold quicrq_datagram_handle_lost
      rw [hfind]
      simp [hacked]
    · intro hacked htime
      unfold quicrq_datagram_handle_lost
      rw [hfind]
      have : ¬ r.last_sent_time ≤ sent_time + 1000 := by omega
      simp [hacked, this]
    · intro hacked htime
      unfold quicrq_datagram_handle_lost
      rw [hfind]
      try dsimp only
      have hcond : (!r.is_acked && decide (r.last_sent_time ≤ sent_time + 1000)) = true := by
        rw [hacked]
        simp [htime]
      rw [hcond]
      try dsimp only
      refine ⟨rfl, ?_, ?_⟩
      · refine List.mem_map.mpr ⟨r, hr, ?_⟩
        simp [h1, h2]
      · intro x hx hxk
        refine List.mem_map.mpr ⟨x, hx, ?_⟩
        rcases hxk with hne | hne <;> simp [hne]

/-- Witness for C6's amended theorem: the repeat branch at the concrete
one-record ack tree. -/
theorem c6_amended_lost_handling_witness :
    (quicrq_datagram_handle_lost exampleAckTree 5 0 100500 200000).2 = true ∧
    ({ object_id := 5, object_offset := 0, length := 10, is_last_fragment := true,
        is_acked := false, fec_needed := true, last_sent_time := 200000 } :
      DatagramAckState) ∈
      (quicrq_datagram_handle_lost exampleAckTree 5 0 100500 200000).1 := by
  have h := ((c6_amended_lost_handling exampleAckTree 5 0 100500 200000).2
    { object_id := 5, object_offset := 0, length := 10, is_last_fragment := true,
      last_sent_time := 100000 }
    (by simp [ackKeysUnique, exampleAckTree]) (by simp [exampleAckTree]) rfl rfl).2.2
    rfl (by decide)
  exact ⟨h.1, h.2.1⟩

/-- Counterexample for C6: a loss report whose sent_time equals the
record's last_sent_time (well within 1 ms). The claim says such a report
is ignored; the code marks fec_needed, stamps the send time and queues a
repeat. -/
theorem c6_counterexample :
    (quicrq_datagram_handle_lost exampleAckTree 5 0 100000 200000).2 = true ∧
    (quicrq_datagram_handle_lost exampleAckTree 5 0 100000 200000).1.map
      (fun r => (r.fec_needed, r.last_sent_time)) = [(true, 200000)] := by
  decide

theorem purge_preserves_closed_and_timer (fuel : Nat) :
    ∀ (c : CacheState) (now dmax kept : Nat),
      (quicrq_relay_cache_media_purge fuel c now dmax kept).is_closed = c.is_closed ∧
      (quicrq_relay_cache_media_purge fuel c now dmax kept).cache_delete_time =
        c.cache_delete_time := by
  induction fuel with
  | zero => intro c now dmax kept; exact ⟨rfl, rfl⟩
  | succ fuel ih =>
    intro c now dmax kept
    rw [quicrq_relay_cache_media_purge]
    split
    · exact ⟨rfl, rfl⟩
    · split
      · exact ⟨rfl, rfl⟩
      · split
        · exact ⟨(ih _ _ _ _).1, (ih _ _ _ _).2⟩
        · exact ⟨(ih _ _ _ _).1, (ih _ _ _ _).2⟩

/-- C7, amended: when the relay cache-management pass examines a
relay-created source, the source is deleted exactly when its cache is
closed and either the cache holds no fragment after the purge step, or no
reader stream is attached and current_time ≥ cache_delete_time. An empty
closed cache is therefore deleted even while a reader is still attached. -/
theorem manage_decision_snd (cache : CacheState) (has_reader : Bool) (now : Nat) :
    (quicrq_manage_relay_cache_decision cache has_reader now).2 = cache := by
  unfold quicrq_manage_relay_cache_decision
  split
  · split
    · rfl
    · split
      · split <;> rfl
      · rfl
  · rfl

theorem manage_decision_fst (cache : CacheState) (has_reader : Bool) (now : Nat) :
    (quicrq_manage_relay_cache_decision cache has_reader now).1 =
      (cache.is_closed && (cache.fragments.isEmpty ||
        (!has_reader && decide (cache.cache_delete_time ≤ now)))) := by
  unfold quicrq_manage_relay_cache_decision
  cases hcl : cache.is_closed <;> cases hemp : cache.fragments.isEmpty <;>
    cases hrd : has_reader <;> by_cases ht : cache.cache_delete_time ≤ now <;>
    simp [hcl, hemp, hrd, ht]

/-- C7, amended: when the relay cache-management pass examines a
relay-created source, the source is deleted exactly when its cache is
closed and either the cache holds no fragment after the purge step, or no
reader stream is attached and current_time ≥ cache_delete_time. An empty
closed cache is therefore deleted even while a reader is still attached. -/
theorem c7_amended_reclaim_condition (dmax : Nat) (src : RelaySourceCtx) (now : Nat) :
    (quicrq_manage_relay_cache_source dmax src now).1 =
      (src.cache.is_closed &&
        ((quicrq_manage_relay_cache_source dmax src now).2.fragments.isEmpty ||
          (!src.has_reader && decide (src.cache.cache_delete_time ≤ now)))) := by
  unfold quicrq_manage_relay_cache_source
  try dsimp only
  split
  · rename_i hdmax
    rw [manage_decision_fst, manage_decision_snd,
      (purge_preserves_closed_and_timer _ _ _ _ _).1,
      (purge_preserves_closed_and_timer _ _ _ _ _).2]
  · rw [manage_decision_fst, manage_decision_snd]

/-- Counterexample for C7: a closed empty cache whose delete timer has not
expired and which still has an attached reader is deleted by the
management pass, contradicting the claim that a cache with an attached
reader is never reclaimed. -/
theorem c7_counterexample :
    (quicrq_manage_relay_cache_source 0 exampleClosedSource 0).1 = true ∧
    exampleClosedSource.has_reader = true ∧
    exampleClosedSource.cache.is_closed = true ∧
    0 < exampleClosedSource.cache.cache_delete_time := by
  decide

/-- Witness for C7's amended theorem: the deletion decision at the
concrete closed-empty-with-reader source equals the amended condition. -/
theorem c7_amended_reclaim_condition_witness :
    (quicrq_manage_relay_cache_source 0 exampleClosedSource 0).1 =
      (exampleClosedSource.cache.is_closed &&
        ((quicrq_manage_relay_cache_source 0 exampleClosedSource 0).2.fragments.isEmpty ||
          (!exampleClosedSource.has_reader &&
            decide (exampleClosedSource.cache.cache_delete_time ≤ 0)))) :=
  c7_amended_reclaim_condition 0 exampleClosedSource 0

/-!
C8: derivation of the final point on quicrq_media_close. The splay lookup
picosplay_find_previous is characterised, on the sorted traversal, as the
greatest element strictly below the probe key.
-/

theorem fragKeyLt_iff (f : Fragment) (g o off : Nat) :
    fragKeyLt f g o off = true ↔ lt3 (keyTriple f) (g, o, off) := by
  simp [fragKeyLt, lt3, keyTriple]

theorem not_lt3_tripleLe {x y : Nat × Nat × Nat} (h : ¬ lt3 x y) : tripleLe y x := by
  rcases x with ⟨a, b, c⟩
  rcases y with ⟨d, e, f⟩
  unfold lt3 at h
  unfold tripleLe
  dsimp only at h ⊢
  omega

theorem tripleLe_lt3_trans {x y z : Nat × Nat × Nat}
    (h1 : tripleLe x y) (h2 : lt3 y z) : lt3 x z := by
  rcases x with ⟨a, b, c⟩
  rcases y with ⟨d, e, f⟩
  rcases z with ⟨g, i, j⟩
  unfold tripleLe at h1
  unfold lt3 at h2 ⊢
  dsimp only at h1 h2 ⊢
  omega

theorem fragLt_false_le {a b : Fragment} (h : fragLt b a = false) :
    tripleLe (keyTriple a) (keyTriple b) := by
  refine not_lt3_tripleLe (fun hlt => ?_)
  have hb : fragKeyLt b a.group_id a.object_id a.offset = true :=
    (fragKeyLt_iff b a.group_id a.object_id a.offset).mpr hlt
  unfold fragLt at h
  rw [h] at hb
  cases hb

theorem mem_of_getLastSome :
    ∀ (l : List Fragment) (m : Fragment), l.getLast? = some m → m ∈ l := by
  intro l
  induction l with
  | nil => intro m hm; simp at hm
  | cons x xs ih =>
    intro m hm
    cases xs with
    | nil =>
      simp [List.getLast?] at hm
      simp [hm]
    | cons y rest =>
      rw [List.getLast?_cons_cons] at hm
      exact List.mem_cons_of_mem x (ih m hm)

theorem sorted_last_ge :
    ∀ (l : List Fragment), cacheSorted l → ∀ m, l.getLast? = some m →
      ∀ f ∈ l, tripleLe (keyTriple f) (keyTriple m) := by
  intro l
  induction l with
  | nil => intro _ m hm; simp at hm
  | cons x xs ih =>
    intro hs m hm f hf
    cases xs with
    | nil =>
      simp [List.getLast?] at hm
      simp at hf
      subst hm
      subst hf
      exact Or.inr ⟨rfl, Or.inr ⟨rfl, Nat.le_refl _⟩⟩
    | cons y rest =>
      rw [List.getLast?_cons_cons] at hm
      rcases List.mem_cons.mp hf with rfl | hf2
      · have hmem : m ∈ y :: rest := mem_of_getLastSome (y :: rest) m hm
        exact fragLt_false_le ((List.pairwise_cons.mp hs).1 m hmem)
      · exact ih (List.Pairwise.of_cons hs) m hm f hf2

theorem takeWhile_mem_sorted (g o off : Nat) :
    ∀ (l : List Fragment), cacheSorted l → ∀ f ∈ l, fragKeyLt f g o off = true →
      f ∈ l.takeWhile (fun x => fragKeyLt x g o off) := by
  intro l
  induction l with
  | nil => intro _ f hf; simp at hf
  | cons x xs ih =>
    intro hs f hf hpf
    cases hp : fragKeyLt x g o off with
    | true =>
      rcases List.mem_cons.mp hf with rfl | hf2
      · simp [List.takeWhile_cons, hp]
      · simp only [List.takeWhile_cons, hp, if_true]
        exact List.mem_cons_of_mem x (ih (List.Pairwise.of_cons hs) f hf2 hpf)
    | false =>
      rcases List.mem_cons.mp hf with rfl | hf2
      · rw [hpf] at hp; cases hp
      · have hle := fragLt_false_le ((List.pairwise_cons.mp hs).1 f hf2)
        have hxlt : lt3 (keyTriple x) (g, o, off) :=
          tripleLe_lt3_trans hle ((fragKeyLt_iff f g o off).mp hpf)
        have hx := (fragKeyLt_iff x g o off).mpr hxlt
        rw [hp] at hx
        cases hx

theorem find_previous_none_iff (l : List Fragment) (g o off : Nat)
    (hs : cacheSorted l) :
    picosplay_find_previous l g o off = none ↔
      ∀ f ∈ l, ¬ lt3 (keyTriple f) (g, o, off) := by
  unfold picosplay_find_previous
  constructor
  · intro h f hf hlt
    have hp := (fragKeyLt_iff f g o off).mpr hlt
    have hmem := takeWhile_mem_sorted g o off l hs f hf hp
    rw [List.getLast?_eq_none_iff] at h
    rw [h] at hmem
    cases hmem
  · intro h
    cases l with
    | nil => rfl
    | cons x xs =>
      have hp : fragKeyLt x g o off = false := by
        cases hp : fragKeyLt x g o off with
        | false => rfl
        | true =>
          exact absurd ((fragKeyLt_iff x g o off).mp hp)
            (h x (List.mem_cons_self x xs))
      simp [List.takeWhile_cons, hp]

theorem find_previous_some_spec (l : List Fragment) (g o off : Nat) (f : Fragment)
    (hs : cacheSorted l) (h : picosplay_find_previous l g o off = some f) :
    f ∈ l ∧ lt3 (keyTriple f) (g, o, off) ∧
      ∀ x ∈ l, lt3 (keyTriple x) (g, o, off) → tripleLe (keyTriple x) (keyTriple f) := by
  unfold picosplay_find_previous at h
  have hmemT : f ∈ l.takeWhile (fun x => fragKeyLt x g o off) :=
    mem_of_getLastSome _ f h
  have hsub : f ∈ l := (List.takeWhile_sublist _).subset hmemT
  have hpf := List.mem_takeWhile_imp hmemT
  refine ⟨hsub, (fragKeyLt_iff f g o off).mp hpf, ?_⟩
  intro x hx hxlt
  have hxT := takeWhile_mem_sorted g o off l hs x hx ((fragKeyLt_iff x g o off).mpr hxlt)
  have hsT : cacheSorted (l.takeWhile (fun x => fragKeyLt x g o off)) :=
    List.Pairwise.sublist (List.takeWhile_sublist _) hs
  exact sorted_last_ge _ hsT f h x hxT

/-- C8: when quicrq_media_close arrives with the final point still unset,
quicrq_relay_consumer_cb derives it: (next_group_id, next_object_id) when
next_offset = 0; (next_group_id, next_object_id - 1) when next_offset ≠ 0
and next_object_id > 1; otherwise the (group_id, object_id) of the largest
cached fragment whose key lies below (next_group_id, 0, 0), falling back
to (first_group_id, first_object_id) when no fragment lies below. -/
theorem c8_close_final_point_derivation (c : CacheState) (t : Nat)
    (hs : cacheSorted c.fragments)
    (hg : c.final_group_id = 0) (ho : c.final_object_id = 0) :
    (c.next_offset = 0 →
      (quicrq_relay_consumer_close c t).final_group_id = c.next_group_id ∧
      (quicrq_relay_consumer_close c t).final_object_id = c.next_object_id) ∧
    (c.next_offset ≠ 0 → 1 < c.next_object_id →
      (quicrq_relay_consumer_close c t).final_group_id = c.next_group_id ∧
      (quicrq_relay_consumer_close c t).final_object_id = c.next_object_id - 1) ∧
    (c.next_offset ≠ 0 → ¬ 1 < c.next_object_id →
      ((∃ f, f ∈ c.fragments ∧ lt3 (keyTriple f) (c.next_group_id, 0, 0) ∧
          (∀ x ∈ c.fragments, lt3 (keyTriple x) (c.next_group_id, 0, 0) →
            tripleLe (keyTriple x) (keyTriple f)) ∧
          (quicrq_relay_consumer_close c t).final_group_id = f.group_id ∧
          (quicrq_relay_consumer_close c t).final_object_id = f.object_id) ∨
        ((∀ f ∈ c.fragments, ¬ lt3 (keyTriple f) (c.next_group_id, 0, 0)) ∧
          (quicrq_relay_consumer_close c t).final_group_id = c.first_group_id ∧
          (quicrq_relay_consumer_close c t).final_object_id = c.first_object_id))) := by
  refine ⟨?_, ?_, ?_⟩
  · intro h0
    unfold quicrq_relay_consumer_close
    rw [if_pos ⟨hg, ho⟩]
    try dsimp only
    rw [if_pos h0]
    exact ⟨rfl, rfl⟩
  · intro h0 h1
    unfold quicrq_relay_consumer_close
    rw [if_pos ⟨hg, ho⟩]
    try dsimp only
    rw [if_neg h0, if_pos h1]
    exact ⟨rfl, rfl⟩
  · intro h0 h1
    unfold quicrq_relay_consumer_close
    rw [if_pos ⟨hg, ho⟩]
    try dsimp only
    rw [if_neg h0, if_neg h1]
    cases hfp : picosplay_find_previous c.fragments c.next_group_id 0 0 with
    | some f =>
      left
      obtain ⟨hmem, hlt, hmax⟩ :=
        find_previous_some_spec c.fragments c.next_group_id 0 0 f hs hfp
      exact ⟨f, hmem, hlt, hmax, rfl, rfl⟩
    | none =>
      right
      exact ⟨(find_previous_none_iff c.fragments c.next_group_id 0 0 hs).mp hfp, rfl, rfl⟩

/-- Witness for C8: a concrete close on exampleCloseCache, whose frontier
stopped at (1, 1, 5); the derived final point is object (0, 3). -/
theorem c8_close_final_point_derivation_witness :
    (exampleCloseCache.next_offset = 0 →
      (quicrq_relay_consumer_close exampleCloseCache 7).final_group_id = exampleCloseCache.next_group_id ∧
      (quicrq_relay_consumer_close exampleCloseCache 7).final_object_id = exampleCloseCache.next_object_id) ∧
    (exampleCloseCache.next_offset ≠ 0 → 1 < exampleCloseCache.next_object_id →
      (quicrq_relay_consumer_close exampleCloseCache 7).final_group_id = exampleCloseCache.next_group_id ∧
      (quicrq_relay_consumer_close exampleCloseCache 7).final_object_id = exampleCloseCache.next_object_id - 1) ∧
    (exampleCloseCache.next_offset ≠ 0 → ¬ 1 < exampleCloseCache.next_object_id →
      ((∃ f, f ∈ exampleCloseCache.fragments ∧ lt3 (keyTriple f) (exampleCloseCache.next_group_id, 0, 0) ∧
          (∀ x ∈ exampleCloseCache.fragments, lt3 (keyTriple x) (exampleCloseCache.next_group_id, 0, 0) →
            tripleLe (keyTriple x) (keyTriple f)) ∧
          (quicrq_relay_consumer_close exampleCloseCache 7).final_group_id = f.group_id ∧
          (quicrq_relay_consumer_close exampleCloseCache 7).final_object_id = f.object_id) ∨
        ((∀ f ∈ exampleCloseCache.fragments, ¬ lt3 (keyTriple f) (exampleCloseCache.next_group_id, 0, 0)) ∧
          (quicrq_relay_consumer_close exampleCloseCache 7).final_group_id = exampleCloseCache.first_group_id ∧
          (quicrq_relay_consumer_close exampleCloseCache 7).final_object_id = exampleCloseCache.first_object_id))) :=
  c8_close_final_point_derivation exampleCloseCache 7 (by unfold cacheSorted; decide) (by decide) (by decide)

/-!
C10: the data == NULL get_data call. The resolution phase is characterised
first, then the report of a call whose resolution finds a fragment.
-/

theorem resolve_spec (cache : CacheState) (m : PublisherContext) :
    (quicrq_relay_publisher_resolve cache m).1.length_sent = m.length_sent ∧
    ((quicrq_relay_publisher_resolve cache m).1.current_fragment = none ∨
      (quicrq_relay_publisher_resolve cache m).1.is_current_object_skipped = false) := by
  unfold quicrq_relay_publisher_resolve
  try dsimp only
  split
  · split
    · exact ⟨rfl, Or.inr rfl⟩
    · rename_i heq1
      split
      · split
        · exact ⟨rfl, Or.inr rfl⟩
        · exact ⟨rfl, Or.inl heq1⟩
      · exact ⟨rfl, Or.inl heq1⟩
  · rename_i hsk
    have hskf : m.is_current_object_skipped = false := by
      cases hv : m.is_current_object_skipped
      · rfl
      · exact absurd hv hsk
    split
    · exact ⟨rfl, Or.inr hskf⟩
    · split
      · exact ⟨rfl, Or.inr hskf⟩
      · rename_i heq1
        split
        · split
          · split
            · exact ⟨rfl, Or.inr hskf⟩
            · exact ⟨rfl, Or.inl heq1⟩
          · exact ⟨rfl, Or.inl heq1⟩
        · exact ⟨rfl, Or.inl heq1⟩

theorem resolve_of_fragment (cache : CacheState) (m : PublisherContext) (f : Fragment)
    (h1 : m.is_current_object_skipped = false) (h2 : m.current_fragment = some f) :
    quicrq_relay_publisher_resolve cache m = (m, false) := by
  unfold quicrq_relay_publisher_resolve
  rw [if_neg (by simp [h1])]
  rw [h2]

theorem get_data_active (cache : CacheState) (m : PublisherContext) (b : Bool)
    (dmax : Nat)
    (h : (quicrq_relay_publisher_get_data cache m b dmax).2.is_still_active = true) :
    ¬ quicrq_relay_publisher_finished cache m ∧
      ∃ f, (quicrq_relay_publisher_resolve cache m).1.current_fragment = some f := by
  by_cases hfin : quicrq_relay_publisher_finished cache m
  · exfalso
    unfold quicrq_relay_publisher_get_data at h
    rw [if_pos hfin] at h
    simp at h
  · refine ⟨hfin, ?_⟩
    unfold quicrq_relay_publisher_get_data at h
    rw [if_neg hfin] at h
    try dsimp only at h
    cases hcf : (quicrq_relay_publisher_resolve cache m).1.current_fragment with
    | none => rw [hcf] at h; simp at h
    | some f => exact ⟨f, rfl⟩


theorem get_data_null_report (cache : CacheState) (m : PublisherContext) (dmax : Nat)
    (f : Fragment) (hfin : ¬ quicrq_relay_publisher_finished cache m)
    (hcf0 : (quicrq_relay_publisher_resolve cache m).1.current_fragment = some f) :
    (quicrq_relay_publisher_get_data cache m true dmax).1.current_fragment = some f ∧
    (quicrq_relay_publisher_get_data cache m true dmax).1.is_current_object_skipped =
      (quicrq_relay_publisher_resolve cache m).1.is_current_object_skipped ∧
    (quicrq_relay_publisher_get_data cache m true dmax).1.length_sent = m.length_sent ∧
    (quicrq_relay_publisher_get_data cache m true dmax).2.data_length =
      (if f.data_length - m.length_sent ≤ dmax then f.data_length - m.length_sent else dmax) ∧
    (quicrq_relay_publisher_get_data cache m true dmax).2.is_last_fragment =
      (if f.data_length - m.length_sent ≤ dmax then f.is_last_fragment else false) := by
  have hls0 := (resolve_spec cache m).1
  rcases hres : quicrq_relay_publisher_resolve cache m with ⟨m1, ing⟩
  rw [hres] at hcf0 hls0
  dsimp only at hcf0 hls0
  unfold quicrq_relay_publisher_get_data
  rw [if_neg hfin, hres]
  try dsimp only
  rw [hcf0]
  try dsimp only
  try simp only [reduceIte]
  rw [hls0]
  by_cases hav : f.data_length - m.length_sent ≤ dmax
  · simp only [if_pos hav]
    split
    · refine ⟨?_, ?_, ?_, ?_, ?_⟩ <;> first | trivial | exact hcf0 | exact hls0
    · split <;> (refine ⟨?_, ?_, ?_, ?_, ?_⟩ <;> first | trivial | exact hcf0 | exact hls0)
  · simp only [if_neg hav]
    split
    · refine ⟨?_, ?_, ?_, ?_, ?_⟩ <;> first | trivial | exact hcf0 | exact hls0
    · split <;> (refine ⟨?_, ?_, ?_, ?_, ?_⟩ <;> first | trivial | exact hcf0 | exact hls0)

theorem get_data_read_report (cache : CacheState) (m : PublisherContext) (dmax : Nat)
    (f : Fragment) (hfin : ¬ quicrq_relay_publisher_finished cache m)
    (hsk : m.is_current_object_skipped = false)
    (hcf : m.current_fragment = some f) :
    (quicrq_relay_publisher_get_data cache m false dmax).2.data_length =
      (if f.data_length - m.length_sent ≤ dmax then f.data_length - m.length_sent else dmax) ∧
    (quicrq_relay_publisher_get_data cache m false dmax).2.is_last_fragment =
      (if f.data_length - m.length_sent ≤ dmax then f.is_last_fragment else false) := by
  unfold quicrq_relay_publisher_get_data
  rw [if_neg hfin]
  try dsimp only
  rw [resolve_of_fragment cache m f hsk hcf]
  try dsimp only
  rw [hcf]
  try dsimp only
  try simp only [reduceIte]
  by_cases hav : f.data_length - m.length_sent ≤ dmax
  · simp only [if_pos hav]
    try dsimp only
    try simp only [reduceIte]
    split <;> (try split) <;> (refine ⟨?_, ?_⟩ <;> trivial)
  · simp only [if_neg hav]
    try dsimp only
    try simp only [reduceIte]
    split <;> (try split) <;> (refine ⟨?_, ?_⟩ <;> trivial)

/-- Counterexample for C10: reader at (0, 1, 0) over a cache whose only
fragment opens group 1 with nb_objects_previous_group 1 and whose final
point is (1, 0). The data == NULL call advances the cursor into group 1
while reporting 2 available bytes of a last fragment, and the immediately
following non-NULL call with the same data_max_size hits the end-of-media
test and reports data_length 0 instead. -/
theorem c10_counterexample :
    (quicrq_relay_publisher_get_data exampleReaderCache exampleReaderContext true 16).2.data_length = 2 ∧
    (quicrq_relay_publisher_get_data exampleReaderCache exampleReaderContext true 16).2.is_last_fragment = true ∧
    (quicrq_relay_publisher_get_data exampleReaderCache exampleReaderContext true 16).2.is_still_active = true ∧
    (quicrq_relay_publisher_get_data exampleReaderCache exampleReaderContext true 16).1.length_sent = exampleReaderContext.length_sent ∧
    (quicrq_relay_publisher_get_data exampleReaderCache
      ((quicrq_relay_publisher_get_data exampleReaderCache exampleReaderContext true 16).1) false 16).2.data_length = 0 ∧
    (quicrq_relay_publisher_get_data exampleReaderCache
      ((quicrq_relay_publisher_get_data exampleReaderCache exampleReaderContext true 16).1) false 16).2.is_last_fragment = false ∧
    (quicrq_relay_publisher_get_data exampleReaderCache
      ((quicrq_relay_publisher_get_data exampleReaderCache exampleReaderContext true 16).1) false 16).2.is_media_finished = true := by
  decide

/-- C10, amended: a get_data call with data == NULL and a live fragment
leaves length_sent unchanged and keeps current_fragment set, though its
resolution phase may move the cursor onto the fragment it reports; provided
the cursor after the call still lies below the recorded final point (or no
final point is recorded), an immediately following call with a non-NULL
buffer and the same data_max_size returns the same data_length and
is_last_fragment. -/
theorem c10_amended_null_then_read (cache : CacheState) (m : PublisherContext)
    (dmax : Nat)
    (h_active : (quicrq_relay_publisher_get_data cache m true dmax).2.is_still_active = true)
    (h_below : ¬ quicrq_relay_publisher_finished cache
      (quicrq_relay_publisher_get_data cache m true dmax).1) :
    (quicrq_relay_publisher_get_data cache m true dmax).1.length_sent = m.length_sent ∧
    (quicrq_relay_publisher_get_data cache
        ((quicrq_relay_publisher_get_data cache m true dmax).1) false dmax).2.data_length =
      (quicrq_relay_publisher_get_data cache m true dmax).2.data_length ∧
    (quicrq_relay_publisher_get_data cache
        ((quicrq_relay_publisher_get_data cache m true dmax).1) false dmax).2.is_last_fragment =
      (quicrq_relay_publisher_get_data cache m true dmax).2.is_last_fragment := by
  obtain ⟨hfin, f, hcf⟩ := get_data_active cache m true dmax h_active
  obtain ⟨h1, h2, h3, h4, h5⟩ := get_data_null_report cache m dmax f hfin hcf
  have hskres : (quicrq_relay_publisher_resolve cache m).1.is_current_object_skipped = false := by
    rcases (resolve_spec cache m).2 with hnone | hok
    · rw [hcf] at hnone; cases hnone
    · exact hok
  have hsk2 : (quicrq_relay_publisher_get_data cache m true dmax).1.is_current_object_skipped = false := by
    rw [h2]; exact hskres
  obtain ⟨r1, r2⟩ := get_data_read_report cache
    ((quicrq_relay_publisher_get_data cache m true dmax).1) dmax f h_below hsk2 h1
  refine ⟨h3, ?_, ?_⟩
  · rw [r1, h3, h4]
  · rw [r2, h3, h5]

/-- Witness for the amended C10 theorem: a fresh reader over
exampleActiveReaderCache, whose final point (0, 2) lies beyond the object
being read. -/
theorem c10_amended_null_then_read_witness :
    (quicrq_relay_publisher_get_data exampleActiveReaderCache exampleFreshReader true 10).1.length_sent = exampleFreshReader.length_sent ∧
    (quicrq_relay_publisher_get_data exampleActiveReaderCache
        ((quicrq_relay_publisher_get_data exampleActiveReaderCache exampleFreshReader true 10).1) false 10).2.data_length =
      (quicrq_relay_publisher_get_data exampleActiveReaderCache exampleFreshReader true 10).2.data_length ∧
    (quicrq_relay_publisher_get_data exampleActiveReaderCache
        ((quicrq_relay_publisher_get_data exampleActiveReaderCache exampleFreshReader true 10).1) false 10).2.is_last_fragment =
      (quicrq_relay_publisher_get_data exampleActiveReaderCache exampleFreshReader true 10).2.is_last_fragment :=
  c10_amended_null_then_read exampleActiveReaderCache exampleFreshReader 10 (by decide) (by decide)

end Quicrq
